import Mathlib

/-!
# E-ComerceRiwi seed pipeline — verification development

Shallow embedding of the CSV-driven seed pipeline of the E-ComerceRiwi
repository (`app/src/seeders/*`), together with proofs about it.

Conventions of the embedding:
* JavaScript strings are modelled as `List Char`; JavaScript numbers are
  modelled as exact rationals extended with the IEEE special values
  `Infinity`, `-Infinity` and `NaN` (`JsNum`).  No claim proved below
  depends on float rounding, only on the special-value behaviour of
  division, which is preserved.
* JavaScript records (objects built by `record[key] = value` assignments)
  are modelled as insertion-ordered association lists with overwrite
  semantics (`JsRecord`, `jsSet`, `jsGet`); reading an absent key yields
  `undefined`, as in JavaScript.  JS objects hold each key at most once,
  so overwrite is written as "replace the (unique) binding in place".
* Stateful seeder code (database writes) is modelled by explicit state
  passing over a table-indexed store, in the `Seeding` section below.
-/

namespace ECommerceRiwi

/-- Abbreviation: the characters of a string literal.  All JS strings are
modelled as `List Char`. -/
def chars (s : String) : List Char := s.data

/-! ## JavaScript numbers -/

/-- A JavaScript number: an exact rational, or one of the IEEE special
values.  Finite doubles are modelled as exact rationals; the claims below
only depend on integrality and on the special values. -/
inductive JsNum : Type
  | rat (q : ℚ)
  | posInf
  | negInf
  | nan
deriving DecidableEq, Repr

/-- A `JsNum` is finite when it is an ordinary rational. -/
def JsNum.isFinite : JsNum → Bool
  | .rat _ => true
  | _ => false

/-- JavaScript `/` on numbers.  Division by (positive) zero yields a signed
infinity, `0/0` and any operation on `NaN` yield `NaN`. -/
def JsNum.div : JsNum → JsNum → JsNum
  | .nan, _ => .nan
  | .rat a, .rat b =>
      if b = 0 then (if 0 < a then .posInf else if a < 0 then .negInf else .nan)
      else .rat (a / b)
  | .posInf, .rat b => if b < 0 then .negInf else .posInf
  | .negInf, .rat b => if b < 0 then .posInf else .negInf
  | .rat _, .posInf => .rat 0
  | .rat _, .negInf => .rat 0
  | .posInf, .posInf => .nan
  | .posInf, .negInf => .nan
  | .negInf, .posInf => .nan
  | .negInf, .negInf => .nan
  | _, .nan => .nan

/-- JavaScript `*` on numbers (`NaN` is absorbing, `±Infinity * 0 = NaN`). -/
def JsNum.mul : JsNum → JsNum → JsNum
  | .nan, _ => .nan
  | .rat a, .rat b => .rat (a * b)
  | .posInf, .rat b => if b = 0 then .nan else if b < 0 then .negInf else .posInf
  | .negInf, .rat b => if b = 0 then .nan else if b < 0 then .posInf else .negInf
  | .rat a, .posInf => if a = 0 then .nan else if a < 0 then .negInf else .posInf
  | .rat a, .negInf => if a = 0 then .nan else if a < 0 then .posInf else .negInf
  | .posInf, .posInf => .posInf
  | .posInf, .negInf => .negInf
  | .negInf, .posInf => .negInf
  | .negInf, .negInf => .posInf
  | _, .nan => .nan

/-- Dividing by the number `0` never yields a finite result: the unguarded
`subtotal / amount` in the order-detail seeder produces `±Infinity` or
`NaN` whenever `amount` is `0`. -/
theorem JsNum.div_rat_zero_not_finite (x : JsNum) :
    (x.div (.rat 0)).isFinite = false := by
  cases x with
  | rat a =>
      rcases lt_trichotomy 0 a with h | h | h
      · simp [JsNum.div, h, JsNum.isFinite]
      · simp [JsNum.div, ← h, JsNum.isFinite]
      · simp [JsNum.div, h, lt_asymm h, JsNum.isFinite]
  | posInf => simp [JsNum.div, JsNum.isFinite]
  | negInf => simp [JsNum.div, JsNum.isFinite]
  | nan => simp [JsNum.div, JsNum.isFinite]

/-! ## JavaScript values and records -/

/-- A JavaScript value as the seeders manipulate them: raw CSV strings,
numbers produced by `parseInt`/`parseFloat`, booleans produced by
comparison with `'true'`, and the two empty values. -/
inductive JsValue : Type
  | str (s : List Char)
  | num (n : JsNum)
  | bool (b : Bool)
  | null
  | undefined
deriving DecidableEq, Repr

/-- A JavaScript object as built by the seeders' `record[key] = value`
assignments: an insertion-ordered association list (each key bound at most
once, as in a JS object). -/
abbrev JsRecord : Type := List (List Char × JsValue)

/-- JavaScript property read `r[k]`: `undefined` when the key is absent. -/
def jsGet : JsRecord → List Char → JsValue
  | [], _ => .undefined
  | p :: r, k => if p.1 = k then p.2 else jsGet r k

/-- JavaScript property write `r[k] = v`: replace the binding in place if
the key exists, otherwise append (JS objects preserve insertion order). -/
def jsSet : JsRecord → List Char → JsValue → JsRecord
  | [], k, v => [(k, v)]
  | p :: r, k, v => if p.1 = k then (k, v) :: r else p :: jsSet r k v

/-- The keys of a record. -/
def jsKeys (r : JsRecord) : List (List Char) := r.map (·.1)

theorem jsGet_jsSet_self (r : JsRecord) (k : List Char) (v : JsValue) :
    jsGet (jsSet r k v) k = v := by
  induction r with
  | nil => simp [jsSet, jsGet]
  | cons p r ih =>
      by_cases hp : p.1 = k
      · simp [jsSet, hp, jsGet]
      · simp [jsSet, hp, jsGet, ih]

theorem jsGet_jsSet_ne (r : JsRecord) (k k' : List Char) (v : JsValue)
    (h : k' ≠ k) : jsGet (jsSet r k v) k' = jsGet r k' := by
  have hkk' : k ≠ k' := fun hh => h hh.symm
  induction r with
  | nil => simp [jsSet, jsGet, if_neg hkk']
  | cons p r ih =>
      by_cases hp : p.1 = k
      · simp only [jsSet, if_pos hp, jsGet, if_neg hkk', hp]
      · simp only [jsSet, if_neg hp, jsGet]
        by_cases hp' : p.1 = k'
        · simp [hp']
        · simp [hp', ih]

theorem mem_jsKeys_jsSet (r : JsRecord) (k k' : List Char) (v : JsValue) :
    k' ∈ jsKeys (jsSet r k v) ↔ k' = k ∨ k' ∈ jsKeys r := by
  induction r with
  | nil => simp [jsSet, jsKeys]
  | cons p r ih =>
      by_cases hp : p.1 = k
      · simp only [jsSet, if_pos hp, jsKeys, List.map_cons, List.mem_cons]
        rw [hp]
        tauto
      · simp only [jsSet, if_neg hp, jsKeys, List.map_cons, List.mem_cons]
        have ih' : k' ∈ List.map (fun x => x.1) (jsSet r k v) ↔
            k' = k ∨ k' ∈ List.map (fun x => x.1) r := ih
        rw [ih']
        tauto

/-- A key is absent exactly when reading it cannot give a bound value;
in particular a non-`undefined` read witnesses membership. -/
theorem mem_jsKeys_of_jsGet_ne_undefined (r : JsRecord) (k : List Char)
    (h : jsGet r k ≠ .undefined) : k ∈ jsKeys r := by
  induction r with
  | nil => exact absurd rfl h
  | cons p r ih =>
      by_cases hp : p.1 = k
      · exact hp ▸ List.mem_cons_self _ _
      · simp only [jsGet, if_neg hp] at h
        exact List.mem_cons_of_mem _ (ih h)

theorem jsGet_eq_undefined_of_not_mem (r : JsRecord) (k : List Char)
    (h : k ∉ jsKeys r) : jsGet r k = .undefined := by
  induction r with
  | nil => rfl
  | cons p r ih =>
      have h₁ : ¬ p.1 = k := fun hh => h (hh ▸ List.mem_cons_self _ _)
      have h₂ : k ∉ jsKeys r := fun hh => h (List.mem_cons_of_mem _ hh)
      simp only [jsGet, if_neg h₁]
      exact ih h₂

/-! ## JavaScript strings: whitespace, `trim`, `split` -/

/-- JavaScript whitespace (the characters occurring in the repository's
data; JS `trim` also strips rarer Unicode spaces, none of which the
pipeline's CSVs contain). -/
def jsWhitespace (c : Char) : Bool :=
  c = ' ' || c = '\t' || c = '\n' || c = '\r'

/-- JavaScript `String.prototype.trim`: strip whitespace from both ends. -/
def trimChars (cs : List Char) : List Char :=
  ((cs.dropWhile jsWhitespace).reverse.dropWhile jsWhitespace).reverse

/-- JavaScript `String.prototype.split` with a one-character separator:
always at least one piece, empty pieces preserved, no escaping. -/
def splitOnChar (sep : Char) : List Char → List (List Char)
  | [] => [[]]
  | c :: cs =>
      match splitOnChar sep cs with
      | [] => [[]]
      | w :: ws => if c = sep then [] :: w :: ws else (c :: w) :: ws

theorem splitOnChar_ne_nil (sep : Char) (cs : List Char) :
    splitOnChar sep cs ≠ [] := by
  cases cs with
  | nil => simp [splitOnChar]
  | cons c cs =>
      simp only [splitOnChar]
      rcases h : splitOnChar sep cs with _ | ⟨w, ws⟩
      · simp
      · by_cases hc : c = sep <;> simp [hc]

/-! ## JavaScript numeric parsing -/

def isDigitChar (c : Char) : Bool := '0' ≤ c && c ≤ '9'

def digitVal (c : Char) : Nat := c.toNat - 48

def digitsToNat (ds : List Char) : Nat :=
  ds.foldl (fun a c => a * 10 + digitVal c) 0

/-- Sign prefix of a JS numeric literal: `(negative?, rest)`. -/
def signSplit : List Char → Bool × List Char
  | '-' :: rest => (true, rest)
  | '+' :: rest => (false, rest)
  | cs => (false, cs)

/-- JavaScript `parseInt(x)` (radix 10) on the characters of a string:
skip leading whitespace, optional sign, then the longest digit prefix;
`NaN` when that prefix is empty.  (The hex `0x` prefix is not modelled:
no call site of the pipeline can receive one that parses differently.) -/
def parseIntChars (cs : List Char) : JsNum :=
  let s := signSplit (cs.dropWhile jsWhitespace)
  let ds := s.2.takeWhile isDigitChar
  if ds = [] then .nan
  else .rat ((if s.1 then -(digitsToNat ds : ℤ) else (digitsToNat ds : ℤ) : ℤ) : ℚ)

/-- Exponent suffix `e±ddd` of a JS numeric literal: `(exponent, rest)`;
an `e` not followed by digits is not consumed (JS takes the longest valid
numeric prefix). -/
def expPart (cs : List Char) : ℤ × List Char :=
  match cs with
  | [] => (0, [])
  | c :: rest =>
      if c = 'e' || c = 'E' then
        let s := signSplit rest
        let eds := s.2.takeWhile isDigitChar
        if eds = [] then (0, c :: rest)
        else ((if s.1 then -(digitsToNat eds : ℤ) else (digitsToNat eds : ℤ)),
              s.2.drop eds.length)
      else (0, c :: rest)

/-- Longest decimal-literal prefix `[±]ddd[.ddd][e±ddd]` of a character
list, as an exact rational together with the unconsumed remainder; `none`
when no digit is found. -/
def parseDecimal (cs : List Char) : Option (ℚ × List Char) :=
  let s := signSplit cs
  let ds := s.2.takeWhile isDigitChar
  let cs₂ := s.2.drop ds.length
  let fs : List Char :=
    match cs₂ with
    | '.' :: rest => rest.takeWhile isDigitChar
    | _ => []
  let rest₃ : List Char :=
    match cs₂ with
    | '.' :: rest => rest.drop (rest.takeWhile isDigitChar).length
    | _ => cs₂
  if ds = [] ∧ fs = [] then none
  else
    let mant : ℚ := (digitsToNat ds : ℚ) + (digitsToNat fs : ℚ) / (10 : ℚ) ^ fs.length
    let e := expPart rest₃
    some ((if s.1 then -mant else mant) * (10 : ℚ) ^ e.1, e.2)

/-- JavaScript `parseFloat` on the characters of a string: skip leading
whitespace, then the longest decimal-literal prefix; `NaN` when there is
none.  (The `Infinity` literal is not modelled; no claim depends on it.) -/
def parseFloatChars (cs : List Char) : JsNum :=
  match parseDecimal (cs.dropWhile jsWhitespace) with
  | some p => .rat p.1
  | none => .nan

/-- `parseInt` applied to a record field: the seeders pass either a raw
CSV string or `undefined` (a missing cell); `parseInt(undefined)`
stringifies to `"undefined"` and yields `NaN`. -/
def parseIntJS : JsValue → JsNum
  | .str s => parseIntChars s
  | _ => .nan

/-- `parseFloat` applied to a record field, same conventions. -/
def parseFloatJS : JsValue → JsNum
  | .str s => parseFloatChars s
  | _ => .nan

/-- JavaScript `ToNumber` coercion, as applied by `*` and `/` to their
operands.  A full-string numeric parse (unlike `parseFloat`'s prefix
parse); the empty/blank string is `0`.  (`Infinity` literal unmodelled;
no claim depends on it.) -/
def jsToNumber : JsValue → JsNum
  | .num n => n
  | .undefined => .nan
  | .null => .rat 0
  | .bool b => .rat (if b then 1 else 0)
  | .str s =>
      let t := trimChars s
      if t = [] then .rat 0
      else
        match parseDecimal t with
        | some (q, []) => .rat q
        | _ => .nan

/-! ## CSV parsing

The parse implemented by `seedFromCSV` (`final.seeder.ts`, lines 32–49)
and repeated inline by the address and order-detail seeders:

```
const lines = csvData.trim().split("\n");
const headers = lines[0].split(",");
const records = lines.slice(1).map(line => {
  const values = line.split(",");
  const record: any = {};
  headers.forEach((header, index) => { record[header] = values[index]; });
  return record;
});
```
-/

/-- The line list: `csvData.trim().split("\n")`. -/
def csvLines (csv : List Char) : List (List Char) :=
  splitOnChar '\n' (trimChars csv)

/-- The header list: `lines[0].split(",")` (the line list is never
empty, so `lines[0]` is its head). -/
def csvHeadersOf (csv : List Char) : List (List Char) :=
  splitOnChar ',' (csvLines csv).headI

/-- `values[index]` as the JS value it denotes: the cell's raw string, or
`undefined` past the end of a short row. -/
def rowValue (values : List (List Char)) (i : Nat) : JsValue :=
  match values.get? i with
  | some s => .str s
  | none => .undefined

/-- The `headers.forEach((header, index) => { record[header] = values[index] })`
loop, as an index-carrying recursion over the header list. -/
def buildRecord (values : List (List Char)) : Nat → List (List Char) → JsRecord → JsRecord
  | _, [], rec => rec
  | i, h :: hs, rec => buildRecord values (i + 1) hs (jsSet rec h (rowValue values i))

/-- The full `seedFromCSV` parse: one record per non-header line. -/
def seedFromCSVParse (csv : List Char) : List JsRecord :=
  (csvLines csv).tail.map (fun line =>
    buildRecord (splitOnChar ',' line) 0 (csvHeadersOf csv) [])

/-- Reference parse, written from the specification's words rather than
the code: trim the text, split into lines, comma-split the first line as
field names, and for each subsequent line produce exactly one record
mapping the i-th field name to the i-th comma-split value (missing values
are `undefined`). -/
def specCsvParse (csv : List Char) : List JsRecord :=
  (csvLines csv).tail.map (fun line =>
    let values := splitOnChar ',' line
    (csvHeadersOf csv).enum.map (fun p => (p.2, rowValue values p.1)))

/-! ## Role seeding (claim C4)

`final.seeder.ts` seeds roles with
`seedFromCSV(Role, "roles.csv", (row) => ({...row, is_active: row.is_active === 'true'}))`;
`role.seeders.ts` applies the same coercion `row.is_active = row.is_active === 'true'`
to each parsed row (via the `csv-parser` stream, which produces the same
field-name → raw-string mapping on the claim's input). -/

/-- The role transform: spread the row and overwrite `is_active` with the
strict-equality comparison against the string `'true'`. -/
def roleTransform (row : JsRecord) : JsRecord :=
  jsSet row (chars "is_active") (.bool (decide (jsGet row (chars "is_active") = .str (chars "true"))))

/-- Records produced for a roles CSV by the seeding path. -/
def seedRolesRecords (csv : List Char) : List JsRecord :=
  (seedFromCSVParse csv).map roleTransform

/-- Whether a value is `null` or `undefined` (what a NOT NULL column
rejects). -/
def isNullish : JsValue → Bool
  | .null => true
  | .undefined => true
  | _ => false

/-- Modelled from the spec: `role.model.ts` is not under `src/` (only its
callers are).  Per the spec's insert-operation interface and the project
documentation, inserting a role fails with a not-null validation error
when the required column `name` is null/undefined (`is_active` has a
default), and otherwise persists the record. -/
def roleInsert (r : JsRecord) : Except (List Char) JsRecord :=
  if isNullish (jsGet r (chars "name")) then
    .error (chars "notNull Violation: Role.name cannot be null")
  else .ok r

/-- The claim C4 boundary-case CSV: header `name,is_active`, rows
`Admin,true` / `User,false` / `Guest,`. -/
def c4Csv : List Char := chars "name,is_active\nAdmin,true\nUser,false\nGuest,"

/-! ## C6 machinery: the code's record builder equals the zip record -/

/-- Setting a fresh key appends the binding. -/
theorem jsSet_fresh (r : JsRecord) (k : List Char) (v : JsValue)
    (h : k ∉ jsKeys r) : jsSet r k v = r ++ [(k, v)] := by
  induction r with
  | nil => rfl
  | cons p r ih =>
      have h₁ : ¬ p.1 = k := fun hh => h (hh ▸ List.mem_cons_self _ _)
      have h₂ : k ∉ jsKeys r := fun hh => h (List.mem_cons_of_mem _ hh)
      simp only [jsSet, if_neg h₁, List.cons_append, ih h₂]

theorem jsKeys_append (r s : JsRecord) :
    jsKeys (r ++ s) = jsKeys r ++ jsKeys s := by
  simp [jsKeys]

/-- Over duplicate-free headers all of whose names are fresh for the
accumulator, the `forEach` record builder is the zip of the (indexed)
headers with the row's values. -/
theorem buildRecord_eq_zip (values : List (List Char)) :
    ∀ (hs : List (List Char)) (i : Nat) (acc : JsRecord),
      hs.Nodup → (∀ h ∈ hs, h ∉ jsKeys acc) →
      buildRecord values i hs acc
        = acc ++ (hs.enumFrom i).map (fun p => (p.2, rowValue values p.1)) := by
  intro hs
  induction hs with
  | nil => intro i acc _ _; simp [buildRecord]
  | cons h hs ih =>
      intro i acc hnd hfresh
      have hfr : h ∉ jsKeys acc := hfresh h (List.mem_cons_self _ _)
      have hset : jsSet acc h (rowValue values i) = acc ++ [(h, rowValue values i)] :=
        jsSet_fresh acc h _ hfr
      have hnd' : hs.Nodup := hnd.of_cons
      have hh : h ∉ hs := by
        intro hmem
        exact (List.nodup_cons.mp hnd).1 hmem
      have hfresh' : ∀ h' ∈ hs, h' ∉ jsKeys (acc ++ [(h, rowValue values i)]) := by
        intro h' hmem
        rw [jsKeys_append]
        intro hk
        rcases List.mem_append.mp hk with hk | hk
        · exact hfresh h' (List.mem_cons_of_mem _ hmem) hk
        · simp only [jsKeys, List.map_cons, List.map_nil, List.mem_singleton] at hk
          exact hh (hk ▸ hmem)
      calc buildRecord values i (h :: hs) acc
          = buildRecord values (i + 1) hs (acc ++ [(h, rowValue values i)]) := by
            simp only [buildRecord, hset]
        _ = (acc ++ [(h, rowValue values i)])
              ++ (hs.enumFrom (i + 1)).map (fun p => (p.2, rowValue values p.1)) :=
            ih (i + 1) _ hnd' hfresh'
        _ = acc ++ ((h :: hs).enumFrom i).map (fun p => (p.2, rowValue values p.1)) := by
            simp [List.enumFrom, List.append_assoc]

/-- Looking a field name up in a zip record finds that name's value. -/
theorem jsGet_zip_record (values : List (List Char)) :
    ∀ (hs : List (List Char)) (i j : Nat) (h : List Char),
      hs.Nodup → hs.get? j = some h →
      jsGet ((hs.enumFrom i).map (fun p => (p.2, rowValue values p.1))) h
        = rowValue values (i + j) := by
  intro hs
  induction hs with
  | nil => intro i j h _ hj; simp at hj
  | cons h₀ hs ih =>
      intro i j h hnd hj
      cases j with
      | zero =>
          simp only [List.get?] at hj
          injection hj with hj
          simp [List.enumFrom, jsGet, hj]
      | succ j =>
          simp only [List.get?] at hj
          have hmem : h ∈ hs := List.get?_mem hj
          have hne : ¬ h₀ = h := fun hh => (List.nodup_cons.mp hnd).1 (hh ▸ hmem)
          simp only [List.enumFrom, List.map_cons, jsGet, if_neg hne]
          rw [ih (i + 1) j h hnd.of_cons hj]
          congr 1
          omega

/-- Decidable equality of `Except` results, to let `decide` evaluate
insert outcomes. -/
instance {ε α : Type} [DecidableEq ε] [DecidableEq α] : DecidableEq (Except ε α) := by
  intro a b
  cases a <;> cases b
  case error.error x y =>
    exact if h : x = y then .isTrue (by rw [h]) else .isFalse (by intro hh; cases hh; exact h rfl)
  case ok.ok x y =>
    exact if h : x = y then .isTrue (by rw [h]) else .isFalse (by intro hh; cases hh; exact h rfl)
  case error.ok x y => exact .isFalse (by intro hh; cases hh)
  case ok.error x y => exact .isFalse (by intro hh; cases hh)

/-! ## Claim C4: the `name,is_active` boundary CSV -/

/-- Claim C4, counterexample to the claimed disjunction: on the 3-row CSV
`name,is_active` / `Admin,true` / `User,false` / `Guest,`, the third row
neither fails at insertion nor has its `is_active` coerced to null — the
missing value is the empty string, `'' === 'true'` is `false`, and the
insert succeeds. -/
theorem c4_third_row_false_not_null_counterexample :
    jsGet ((seedRolesRecords c4Csv).getD 2 []) (chars "is_active") = .bool false
      ∧ (¬ jsGet ((seedRolesRecords c4Csv).getD 2 []) (chars "is_active") = .null)
      ∧ roleInsert ((seedRolesRecords c4Csv).getD 2 [])
          = .ok ((seedRolesRecords c4Csv).getD 2 []) := by
  refine ⟨by decide, by decide, by decide⟩

/-- Claim C4 (amended): seeding the boundary CSV produces three records;
the first two have `is_active` coerced to the booleans `true` and `false`,
and the third (missing value) has `is_active` coerced to the boolean
`false`; all three inserts succeed. -/
theorem c4_boundary_case_amended :
    (seedRolesRecords c4Csv).length = 3
      ∧ jsGet ((seedRolesRecords c4Csv).getD 0 []) (chars "is_active") = .bool true
      ∧ jsGet ((seedRolesRecords c4Csv).getD 1 []) (chars "is_active") = .bool false
      ∧ jsGet ((seedRolesRecords c4Csv).getD 2 []) (chars "is_active") = .bool false
      ∧ ∀ r ∈ seedRolesRecords c4Csv, roleInsert r = .ok r := by
  refine ⟨by decide, by decide, by decide, by decide, by decide⟩

/-- Claim C6: the `seedFromCSV` parse equals the reference definition
(trim, line-split, comma-split header names, one record per further line
zipping the i-th field name with the i-th value), every record binds
exactly the field names in header order, and a row shorter than the
header leaves the later fields `undefined`.  Splitting is at every comma
with no escaping, and the parse is a total function of the text — no
failure is possible before insertion.  (Duplicate-free headers: with a
duplicated field name the reference mapping is not well defined.) -/
theorem c6_seedFromCSV_parse_matches_spec (csv : List Char)
    (hnd : (csvHeadersOf csv).Nodup) :
    seedFromCSVParse csv = specCsvParse csv
      ∧ (∀ r ∈ seedFromCSVParse csv, jsKeys r = csvHeadersOf csv)
      ∧ (∀ line ∈ (csvLines csv).tail, ∀ j h,
          (csvHeadersOf csv).get? j = some h →
          (splitOnChar ',' line).length ≤ j →
          jsGet (buildRecord (splitOnChar ',' line) 0 (csvHeadersOf csv) []) h
            = .undefined) := by
  have hline : ∀ line : List Char,
      buildRecord (splitOnChar ',' line) 0 (csvHeadersOf csv) []
        = ((csvHeadersOf csv).enum).map
            (fun p => (p.2, rowValue (splitOnChar ',' line) p.1)) := by
    intro line
    rw [buildRecord_eq_zip (splitOnChar ',' line) (csvHeadersOf csv) 0 [] hnd
      (by intro h _ hk; simp [jsKeys] at hk)]
    rfl
  refine ⟨?_, ?_, ?_⟩
  · unfold seedFromCSVParse specCsvParse
    exact List.map_congr_left (fun line _ => hline line)
  · intro r hr
    unfold seedFromCSVParse at hr
    rcases List.mem_map.mp hr with ⟨line, _, rfl⟩
    rw [hline line]
    show (((csvHeadersOf csv).enum).map
        (fun p => (p.2, rowValue (splitOnChar ',' line) p.1))).map (·.1)
      = csvHeadersOf csv
    rw [List.map_map]
    exact List.enum_map_snd _
  · intro line _ j h hj hlen
    rw [hline line]
    have h0 : (csvHeadersOf csv).enum = (csvHeadersOf csv).enumFrom 0 := rfl
    have := jsGet_zip_record (splitOnChar ',' line) (csvHeadersOf csv) 0 j h hnd hj
    rw [h0, this]
    unfold rowValue
    rw [List.get?_eq_none.mpr (by omega)]

/-- Witness for C6: the boundary CSV of C4 has duplicate-free headers,
and its `seedFromCSV` parse coincides with the reference parse. -/
theorem c6_witness :
    seedFromCSVParse c4Csv = specCsvParse c4Csv :=
  (c6_seedFromCSV_parse_matches_spec c4Csv (by decide)).1

/-! ## Claim C5: the address seeder's column rename

`address.seeder.ts` builds each address record with

```
headers.forEach((header, index) => {
  const value = values[index];
  let fieldName = header;
  if (header === "departament_id") { fieldName = "department_id"; }
  if (header === "city_id" || header === "departament_id" || header === "department_id"
      || header === "country_id" || header === "user_id") {
    address[fieldName] = parseInt(value);
  } else {
    address[fieldName] = value;
  }
});
```
-/

/-- The headers the address seeder parses as integers. -/
def addressIdHeader (h : List Char) : Bool :=
  h = chars "city_id" || h = chars "departament_id" || h = chars "department_id"
    || h = chars "country_id" || h = chars "user_id"

/-- The rename of the misspelled foreign-key column. -/
def addressFieldName (h : List Char) : List Char :=
  if h = chars "departament_id" then chars "department_id" else h

/-- The value stored for one header: `parseInt` for id columns, the raw
value otherwise. -/
def addressFieldValue (h : List Char) (value : JsValue) : JsValue :=
  if addressIdHeader h then .num (parseIntJS value) else value

/-- The address record-building loop. -/
def addressBuild (values : List (List Char)) : Nat → List (List Char) → JsRecord → JsRecord
  | _, [], rec => rec
  | i, h :: hs, rec =>
      addressBuild values (i + 1) hs
        (jsSet rec (addressFieldName h) (addressFieldValue h (rowValue values i)))

/-- The transform applied to one parsed address row. -/
def addressTransformRow (headers values : List (List Char)) : JsRecord :=
  addressBuild values 0 headers []

/-- The same loop with the rename omitted (the counterfactual the claim
and the repository's troubleshooting guide describe: every field keeps
its header's name). -/
def addressBuildNoRename (values : List (List Char)) : Nat → List (List Char) → JsRecord → JsRecord
  | _, [], rec => rec
  | i, h :: hs, rec =>
      addressBuildNoRename values (i + 1) hs
        (jsSet rec h (addressFieldValue h (rowValue values i)))

def addressTransformRowNoRename (headers values : List (List Char)) : JsRecord :=
  addressBuildNoRename values 0 headers []

/-- Modelled from the spec: `address.model.ts` is not under `src/` (only
its DAO and the project documentation are).  The documented model declares
`user_id`, `city_id`, `department_id`, `country_id`, `street`, `number`
and `postal_code` NOT NULL (`is_active` has default `true`); Sequelize
validation reports every null/undefined required column. -/
def addressRequired : List (List Char) :=
  [chars "user_id", chars "city_id", chars "department_id", chars "country_id",
   chars "street", chars "number", chars "postal_code"]

/-- Modelled from the spec: `createAddress` (`adresses.dao.ts`) runs
`Address.create(data)`, which fails with a `notNull Violation` naming each
required column whose value is null/undefined, and persists the record
otherwise. -/
def addressInsert (r : JsRecord) : Except (List (List Char)) JsRecord :=
  match addressRequired.filter (fun c => isNullish (jsGet r c)) with
  | [] => .ok r
  | vs => .error vs

/-- Keys produced by the address builder: a key of the accumulator or the
(renamed) field name of some header. -/
theorem addressBuild_keys (values : List (List Char)) :
    ∀ (hs : List (List Char)) (i : Nat) (acc : JsRecord) (k : List Char),
      k ∈ jsKeys (addressBuild values i hs acc) →
      k ∈ jsKeys acc ∨ ∃ h ∈ hs, k = addressFieldName h := by
  intro hs
  induction hs with
  | nil => intro i acc k hk; exact Or.inl hk
  | cons h hs ih =>
      intro i acc k hk
      rcases ih (i + 1) _ k hk with hk' | ⟨h', hh', rfl⟩
      · rcases (mem_jsKeys_jsSet _ _ _ _).mp hk' with rfl | hk''
        · exact Or.inr ⟨h, List.mem_cons_self _ _, rfl⟩
        · exact Or.inl hk''
      · exact Or.inr ⟨h', List.mem_cons_of_mem _ hh', rfl⟩

/-- Fields whose (renamed) name is not `key` leave `key`'s value alone. -/
theorem addressBuild_get_untouched (values : List (List Char)) :
    ∀ (hs : List (List Char)) (i : Nat) (acc : JsRecord) (k : List Char),
      (∀ h ∈ hs, addressFieldName h ≠ k) →
      jsGet (addressBuild values i hs acc) k = jsGet acc k := by
  intro hs
  induction hs with
  | nil => intro i acc k _; rfl
  | cons h hs ih =>
      intro i acc k hks
      rw [show addressBuild values i (h :: hs) acc
          = addressBuild values (i + 1) hs
              (jsSet acc (addressFieldName h) (addressFieldValue h (rowValue values i))) from rfl,
        ih (i + 1) _ k (fun h' hh' => hks h' (List.mem_cons_of_mem _ hh')),
        jsGet_jsSet_ne]
      exact fun hk => hks h (List.mem_cons_self _ _) hk.symm

/-- Position of the first occurrence of a header name. -/
def idxOfKey (k : List Char) : List (List Char) → Nat
  | [] => 0
  | h :: hs => if h = k then 0 else idxOfKey k hs + 1

/-- The value the builder leaves under `department_id` when the header
list contains `departament_id` (and no `department_id`) exactly once. -/
theorem addressBuild_department_value (values : List (List Char)) :
    ∀ (hs : List (List Char)) (i : Nat) (acc : JsRecord),
      chars "departament_id" ∈ hs →
      chars "department_id" ∉ hs →
      hs.Nodup →
      jsGet (addressBuild values i hs acc) (chars "department_id")
        = .num (parseIntJS (rowValue values (i + idxOfKey (chars "departament_id") hs))) := by
  intro hs
  induction hs with
  | nil => intro i acc hmem; simp at hmem
  | cons h hs ih =>
      intro i acc hmem hno hnd
      by_cases hh : h = chars "departament_id"
      · have hnotin : chars "departament_id" ∉ hs := by
          rw [← hh]; exact (List.nodup_cons.mp hnd).1
        have huntouched : ∀ h' ∈ hs, addressFieldName h' ≠ chars "department_id" := by
          intro h' hh'
          unfold addressFieldName
          by_cases hd : h' = chars "departament_id"
          · exact absurd (hd ▸ hh') hnotin
          · rw [if_neg hd]
            intro hc
            exact (hno (List.mem_cons_of_mem _ (hc ▸ hh')) : False)
        rw [show addressBuild values i (h :: hs) acc
            = addressBuild values (i + 1) hs
                (jsSet acc (addressFieldName h) (addressFieldValue h (rowValue values i))) from rfl,
          addressBuild_get_untouched values hs (i + 1) _ _ huntouched]
        have hfn : addressFieldName h = chars "department_id" := by
          unfold addressFieldName; rw [if_pos hh]
        have hfv : addressFieldValue h (rowValue values i)
            = .num (parseIntJS (rowValue values i)) := by
          unfold addressFieldValue addressIdHeader
          rw [if_pos (by rw [hh]; decide)]
        rw [hfn, hfv, jsGet_jsSet_self]
        have hidx : idxOfKey (chars "departament_id") (h :: hs) = 0 := by
          rw [show idxOfKey (chars "departament_id") (h :: hs)
              = if h = chars "departament_id" then 0
                else idxOfKey (chars "departament_id") hs + 1 from rfl, if_pos hh]
        rw [hidx, Nat.add_zero]
      · have hmem' : chars "departament_id" ∈ hs := by
          rcases List.mem_cons.mp hmem with hc | hc
          · exact absurd hc.symm hh
          · exact hc
        have hno' : chars "department_id" ∉ hs := fun hc => hno (List.mem_cons_of_mem _ hc)
        rw [show addressBuild values i (h :: hs) acc
            = addressBuild values (i + 1) hs
                (jsSet acc (addressFieldName h) (addressFieldValue h (rowValue values i))) from rfl,
          ih (i + 1) _ hmem' hno' hnd.of_cons]
        have hidx : idxOfKey (chars "departament_id") (h :: hs)
            = idxOfKey (chars "departament_id") hs + 1 := by
          rw [show idxOfKey (chars "departament_id") (h :: hs)
              = if h = chars "departament_id" then 0
                else idxOfKey (chars "departament_id") hs + 1 from rfl, if_neg hh]
        rw [hidx]
        have harg : i + 1 + idxOfKey (chars "departament_id") hs
            = i + (idxOfKey (chars "departament_id") hs + 1) := by omega
        rw [harg]

/-- The renamed field name is never the misspelled `departament_id`. -/
theorem addressFieldName_ne_misspelled (h : List Char) :
    addressFieldName h ≠ chars "departament_id" := by
  unfold addressFieldName
  by_cases hd : h = chars "departament_id"
  · rw [if_pos hd]; decide
  · rw [if_neg hd]; exact hd

/-- Without the rename, every key of the built record is one of the
headers. -/
theorem addressBuildNoRename_keys (values : List (List Char)) :
    ∀ (hs : List (List Char)) (i : Nat) (acc : JsRecord) (k : List Char),
      k ∈ jsKeys (addressBuildNoRename values i hs acc) →
      k ∈ jsKeys acc ∨ k ∈ hs := by
  intro hs
  induction hs with
  | nil => intro i acc k hk; exact Or.inl hk
  | cons h hs ih =>
      intro i acc k hk
      rcases ih (i + 1) _ k hk with hk' | hk'
      · rcases (mem_jsKeys_jsSet _ _ _ _).mp hk' with rfl | hk''
        · exact Or.inr (List.mem_cons_self _ _)
        · exact Or.inl hk''
      · exact Or.inr (List.mem_cons_of_mem _ hk')

/-- Claim C5: when the source header carries the misspelled
`departament_id` (and no correctly spelled `department_id`), the address
transform renames it — the record handed to `createAddress` never has a
`departament_id` key, and its `department_id` field holds `parseInt` of
the misspelled column's cell — while the same loop without the rename
leaves `department_id` undefined, so insertion reports the documented
not-null violation on `department_id`. -/
theorem c5_address_rename (headers values : List (List Char))
    (hmem : chars "departament_id" ∈ headers)
    (hno : chars "department_id" ∉ headers)
    (hnd : headers.Nodup) :
    (chars "departament_id" ∉ jsKeys (addressTransformRow headers values))
      ∧ jsGet (addressTransformRow headers values) (chars "department_id")
          = .num (parseIntJS (rowValue values (idxOfKey (chars "departament_id") headers)))
      ∧ chars "department_id" ∈ jsKeys (addressTransformRow headers values)
      ∧ jsGet (addressTransformRowNoRename headers values) (chars "department_id") = .undefined
      ∧ (∃ vs, addressInsert (addressTransformRowNoRename headers values) = .error vs
          ∧ chars "department_id" ∈ vs) := by
  have hval : jsGet (addressTransformRow headers values) (chars "department_id")
      = .num (parseIntJS (rowValue values (idxOfKey (chars "departament_id") headers))) := by
    have := addressBuild_department_value values headers 0 [] hmem hno hnd
    rwa [Nat.zero_add] at this
  have hnokey : chars "departament_id" ∉ jsKeys (addressTransformRow headers values) := by
    intro hk
    rcases addressBuild_keys values headers 0 [] _ hk with hk' | ⟨h, _, hk'⟩
    · simp [jsKeys] at hk'
    · exact addressFieldName_ne_misspelled h hk'.symm
  have hu : jsGet (addressTransformRowNoRename headers values) (chars "department_id")
      = .undefined := by
    apply jsGet_eq_undefined_of_not_mem
    intro hk
    rcases addressBuildNoRename_keys values headers 0 [] _ hk with hk' | hk'
    · simp [jsKeys] at hk'
    · exact hno hk'
  refine ⟨hnokey, hval, ?_, hu, ?_⟩
  · apply mem_jsKeys_of_jsGet_ne_undefined
    rw [hval]
    intro hc
    cases hc
  · have hfl : chars "department_id"
        ∈ addressRequired.filter
            (fun c => isNullish (jsGet (addressTransformRowNoRename headers values) c)) := by
      apply List.mem_filter.mpr
      refine ⟨by decide, ?_⟩
      rw [hu]
      rfl
    unfold addressInsert
    rcases hfq : addressRequired.filter
        (fun c => isNullish (jsGet (addressTransformRowNoRename headers values) c)) with
      _ | ⟨v, vs⟩
    · rw [hfq] at hfl; simp at hfl
    · rw [hfq] at hfl
      exact ⟨v :: vs, rfl, hfl⟩

/-- Concrete header row for the C5 witness (the repository's
`addresses.csv` header, misspelled column included). -/
def c5Headers : List (List Char) :=
  [chars "user_id", chars "city_id", chars "departament_id", chars "country_id",
   chars "street", chars "number", chars "postal_code"]

/-- Concrete data row for the C5 witness. -/
def c5Values : List (List Char) :=
  [chars "1", chars "2", chars "3", chars "4", chars "Calle 10", chars "5-55", chars "050001"]

/-- Witness for C5 at the concrete header and data row. -/
theorem c5_witness :
    (chars "departament_id" ∈ c5Headers
        ∧ chars "department_id" ∉ c5Headers ∧ c5Headers.Nodup)
      ∧ jsGet (addressTransformRow c5Headers c5Values) (chars "department_id")
          = .num (parseIntJS (rowValue c5Values (idxOfKey (chars "departament_id") c5Headers))) :=
  ⟨⟨by decide, by decide, by decide⟩,
    (c5_address_rename c5Headers c5Values (by decide) (by decide) (by decide)).2.1⟩

/-! ## Seeding runs (claims C1, C2, C3, C7, C8, C9)

`runSeeders` (`seeders/index.ts`) awaits `sequelize.sync({ force: true })`
(drop and recreate every table), then awaits the fifteen entity seeders in
a fixed order inside one `try`; the `catch` rethrows the error unchanged.
Each seeder parses its file and issues its inserts sequentially, awaiting
each one; the first rejection aborts the seeder (and hence the run) and
whatever was already inserted stays committed (there is no transaction).
`runCompleteSeeder` (`complete.seeder.ts`) awaits
`sequelize.sync({ alter: true })` (no drop, existing rows untouched) and
then seeds its seven entities the same way.

The embedding passes the database state explicitly: a store mapping each
entity to its committed rows.  Row contents are abstract (`α`); an
environment `env : Entity → List (List α)` gives each entity its list of
insert units in file order — a unit is what one awaited insert commits
atomically (one record for the record-at-a-time seeders, one
`bulkCreate` group for the order-detail and bulk seeders).  A failure
oracle `fails : Entity → Nat → Option ε` says whether the seeder's i-th
insert rejects and with which error value; the ORM's documented
behaviour (a rejected insert commits nothing, a resolved one commits its
unit) is the interface the spec assumes of the storage layer. -/

/-- The seedable entities of the repository. -/
inductive Entity : Type
  | roles | genders | categories | paymentMethods | banks | orderStatuses
  | countries | departments | cities | accesses | users | products
  | orders | addresses | orderDetails | references
deriving DecidableEq, Repr

/-- The fixed order in which `runSeeders` awaits the entity seeders
(`seeders/index.ts`, lines 43–63). -/
def seederOrder : List Entity :=
  [.roles, .genders, .categories, .paymentMethods, .banks, .orderStatuses,
   .countries, .departments, .cities, .accesses, .users, .products,
   .orders, .addresses, .orderDetails]

/-- The foreign-key dependencies of each entity, as the registry comments
in `seeders/index.ts` declare them. -/
def dependsOn : Entity → List Entity
  | .accesses => [.roles]
  | .users => [.accesses, .genders]
  | .products => [.categories]
  | .orders => [.users, .paymentMethods, .banks, .orderStatuses]
  | .addresses => [.cities, .departments, .countries, .users]
  | .orderDetails => [.orders, .products]
  | _ => []

/-- The order in which `runCompleteSeeder` seeds its entities
(`complete.seeder.ts`, lines 55–70). -/
def completeSeederOrder : List Entity :=
  [.countries, .departments, .cities, .banks, .paymentMethods,
   .orderStatuses, .references]

/-- The database: committed rows per entity. -/
def DB (α : Type) : Type := Entity → List α

/-- Events a run issues, in order. -/
inductive Event : Type
  | sync
  | insert (e : Entity) (i : Nat)
deriving DecidableEq, Repr

/-- One entity seeder: issue the insert units from index `i` on,
sequentially; a rejected insert commits nothing and stops the seeder.
Returns the issued insert indices, the committed rows, and the error of
the failing insert, if any. -/
def seedEntityGo (failsE : Nat → Option ε) : Nat → List (List α) → List Nat × List α × Option ε
  | _, [] => ([], [], none)
  | i, u :: us =>
      match failsE i with
      | some err => ([i], [], some err)
      | none =>
          let r := seedEntityGo failsE (i + 1) us
          (i :: r.1, u ++ r.2.1, r.2.2)

/-- Await the seeders of a list of entities in order, against a database;
the first error stops the run and is returned. -/
def runEntities (env : Entity → List (List α)) (fails : Entity → Nat → Option ε) :
    List Entity → DB α → List Event × DB α × Option ε
  | [], db => ([], db, none)
  | e :: es, db =>
      let r := seedEntityGo (fails e) 0 (env e)
      let db' : DB α := Function.update db e (db e ++ r.2.1)
      let evs := r.1.map (Event.insert e)
      match r.2.2 with
      | some err => (evs, db', some err)
      | none =>
          let rest := runEntities env fails es db'
          (evs ++ rest.1, rest.2.1, rest.2.2)

/-- `runSeeders`: `sequelize.sync({ force: true })` first (every table
dropped and recreated empty), then the fifteen seeders in registry order;
the `catch` rethrows the first error unchanged. -/
def runSeeders (env : Entity → List (List α)) (fails : Entity → Nat → Option ε)
    (db₀ : DB α) : List Event × DB α × Option ε :=
  let emptied : DB α := fun _ => []
  let r := runEntities env fails seederOrder emptied
  (Event.sync :: r.1, r.2.1, r.2.2)

/-- `runCompleteSeeder`: `sequelize.sync({ alter: true })` (no drop — the
incoming database is kept as is), then its seven seeders in order. -/
def runCompleteSeeder (env : Entity → List (List α)) (fails : Entity → Nat → Option ε)
    (db₀ : DB α) : List Event × DB α × Option ε :=
  runEntities env fails completeSeederOrder db₀

/-- Exit code of the standalone entry point (`seeders/index.ts`,
lines 72–79): 0 when the awaited run resolves, 1 when it rejects. -/
def standaloneExitCode (err : Option ε) : Nat :=
  match err with
  | none => 0
  | some _ => 1

section RunLemmas

variable {α ε : Type} (env : Entity → List (List α)) (fails : Entity → Nat → Option ε)

/-- Every event a run of a list of entities issues is an insert of one of
those entities. -/
theorem runEntities_events (l : List Entity) (db : DB α) :
    ∀ ev ∈ (runEntities env fails l db).1, ∃ e i, ev = Event.insert e i ∧ e ∈ l := by
  induction l generalizing db with
  | nil => intro ev hev; simp [runEntities] at hev
  | cons e es ih =>
      intro ev hev
      simp only [runEntities] at hev
      rcases hf : (seedEntityGo (fails e) 0 (env e)).2.2 with _ | err
      · rw [hf] at hev
        simp only [List.mem_append] at hev
        rcases hev with hev | hev
        · rcases List.mem_map.mp hev with ⟨i, _, rfl⟩
          exact ⟨e, i, rfl, List.mem_cons_self _ _⟩
        · rcases ih _ ev hev with ⟨e', i, rfl, he'⟩
          exact ⟨e', i, rfl, List.mem_cons_of_mem _ he'⟩
      · rw [hf] at hev
        rcases List.mem_map.mp hev with ⟨i, _, rfl⟩
        exact ⟨e, i, rfl, List.mem_cons_self _ _⟩

/-- A run only appends to each entity's rows. -/
theorem runEntities_append_only (l : List Entity) (db : DB α) (e : Entity) :
    ∃ add, (runEntities env fails l db).2.1 e = db e ++ add := by
  induction l generalizing db with
  | nil => exact ⟨[], by simp [runEntities]⟩
  | cons e' es ih =>
      rcases hf : (seedEntityGo (fails e') 0 (env e')).2.2 with _ | err
      · simp only [runEntities, hf]
        rcases ih (Function.update db e' (db e' ++ (seedEntityGo (fails e') 0 (env e')).2.1)) with
          ⟨add, hadd⟩
        by_cases he : e' = e
        · subst he
          exact ⟨(seedEntityGo (fails e') 0 (env e')).2.1 ++ add, by
            rw [hadd, Function.update_same, List.append_assoc]⟩
        · exact ⟨add, by rw [hadd, Function.update_noteq (fun hh => he hh.symm)]⟩
      · simp only [runEntities, hf]
        by_cases he : e' = e
        · subst he
          exact ⟨(seedEntityGo (fails e') 0 (env e')).2.1, by rw [Function.update_same]⟩
        · exact ⟨[], by rw [Function.update_noteq (fun hh => he hh.symm), List.append_nil]⟩

/-- Entities not in the list are untouched. -/
theorem runEntities_untouched (l : List Entity) (db : DB α) (e : Entity)
    (he : e ∉ l) : (runEntities env fails l db).2.1 e = db e := by
  induction l generalizing db with
  | nil => rfl
  | cons e' es ih =>
      have he' : ¬ e' = e := fun hh => he (hh ▸ List.mem_cons_self _ _)
      have hes : e ∉ es := fun hh => he (List.mem_cons_of_mem _ hh)
      rcases hf : (seedEntityGo (fails e') 0 (env e')).2.2 with _ | err
      · simp only [runEntities, hf]
        rw [ih _ hes, Function.update_noteq (fun hh => he' hh.symm)]
      · simp only [runEntities, hf]
        rw [Function.update_noteq (fun hh => he' hh.symm)]

/-- Index lists issued by consecutive inserts. -/
theorem range_map_add_succ (i n : Nat) :
    (List.range (n + 1)).map (fun x => i + x)
      = i :: (List.range n).map (fun x => i + 1 + x) := by
  rw [List.range_succ_eq_map, List.map_cons, List.map_map, Nat.add_zero]
  refine congrArg (List.cons i) (List.map_congr_left ?_)
  intro j _
  show i + (j + 1) = i + 1 + j
  omega

/-- A seeder none of whose inserts rejects issues every unit, commits the
whole file, and resolves. -/
theorem seedEntityGo_success (f : Nat → Option ε) (us : List (List α)) (i : Nat)
    (hok : ∀ j < us.length, f (i + j) = none) :
    seedEntityGo f i us = ((List.range us.length).map (fun x => i + x), us.flatten, none) := by
  induction us generalizing i with
  | nil => simp [seedEntityGo]
  | cons u us ih =>
      have h0 : f i = none := by
        have := hok 0 (by simp)
        rwa [Nat.add_zero] at this
      have hok' : ∀ j < us.length, f (i + 1 + j) = none := by
        intro j hj
        have := hok (j + 1) (by simp; omega)
        rwa [show i + (j + 1) = i + 1 + j by omega] at this
      simp only [seedEntityGo, h0, ih (i + 1) hok']
      rw [show (u :: us).length = us.length + 1 from rfl, range_map_add_succ i us.length]
      rfl

/-- A seeder whose first rejected insert is the `j`-th issues exactly the
units up to and including `j`, commits exactly the units before `j`, and
rejects with that insert's error. -/
theorem seedEntityGo_first_fail (f : Nat → Option ε) (us : List (List α)) (i j : Nat)
    (v : ε) (hj : j < us.length) (hfail : f (i + j) = some v)
    (hbefore : ∀ j' < j, f (i + j') = none) :
    seedEntityGo f i us
      = ((List.range (j + 1)).map (fun x => i + x), (us.take j).flatten, some v) := by
  induction us generalizing i j with
  | nil => simp at hj
  | cons u us ih =>
      cases j with
      | zero =>
          have h0 : f i = some v := by rwa [Nat.add_zero] at hfail
          simp only [seedEntityGo, h0]
          rw [range_map_add_succ i 0]
          rfl
      | succ j =>
          have h0 : f i = none := by
            have := hbefore 0 (by omega)
            rwa [Nat.add_zero] at this
          have hfail' : f (i + 1 + j) = some v := by
            rwa [show i + 1 + j = i + (j + 1) by omega]
          have hbefore' : ∀ j' < j, f (i + 1 + j') = none := by
            intro j' hj'
            have := hbefore (j' + 1) (by omega)
            rwa [show i + (j' + 1) = i + 1 + j' by omega] at this
          have hj' : j < us.length := by simpa using Nat.lt_of_succ_lt_succ hj
          simp only [seedEntityGo, h0, ih (i + 1) j hj' hfail' hbefore']
          rw [range_map_add_succ i (j + 1)]
          rfl

/-- A committed seeder that resolved committed its whole file. -/
theorem seedEntityGo_committed_of_ok (f : Nat → Option ε) (us : List (List α)) (i : Nat)
    (h : (seedEntityGo f i us).2.2 = none) :
    (seedEntityGo f i us).2.1 = us.flatten := by
  induction us generalizing i with
  | nil => rfl
  | cons u us ih =>
      rcases hf : f i with _ | err
      · have hrec := ih (i + 1)
        simp only [seedEntityGo, hf] at h ⊢
        rw [hrec h]
        rfl
      · simp only [seedEntityGo, hf] at h
        cases h

/-- A run with no rejected insert resolves and appends each seeded
entity's whole file (entities off the list untouched). -/
theorem runEntities_success (l : List Entity) (db : DB α) (hnd : l.Nodup)
    (hok : ∀ e ∈ l, ∀ j < (env e).length, fails e j = none) :
    (runEntities env fails l db).2.2 = none
      ∧ ∀ e, (runEntities env fails l db).2.1 e
          = db e ++ (if e ∈ l then (env e).flatten else []) := by
  induction l generalizing db with
  | nil =>
      refine ⟨rfl, fun e => ?_⟩
      simp [runEntities]
  | cons e' es ih =>
      have hok' : ∀ j < (env e').length, fails e' j = none := by
        intro j hj
        have := hok e' (List.mem_cons_self _ _) j hj
        exact this
      have hgo : seedEntityGo (fails e') 0 (env e')
          = ((List.range (env e').length).map (fun x => 0 + x), (env e').flatten, none) :=
        seedEntityGo_success (fails e') (env e') 0
          (by intro j hj; rw [Nat.zero_add]; exact hok' j hj)
      have hfe : (seedEntityGo (fails e') 0 (env e')).2.2 = none := by rw [hgo]
      have hce : (seedEntityGo (fails e') 0 (env e')).2.1 = (env e').flatten := by rw [hgo]
      have hnotin : e' ∉ es := (List.nodup_cons.mp hnd).1
      rcases ih (Function.update db e' (db e' ++ (seedEntityGo (fails e') 0 (env e')).2.1))
          (List.nodup_cons.mp hnd).2
          (fun e he => hok e (List.mem_cons_of_mem _ he)) with ⟨herr, hdb⟩
      constructor
      · simp only [runEntities, hfe]
        exact herr
      · intro e
        have hdbe := hdb e
        simp only [runEntities, hfe]
        rw [hdbe]
        by_cases he : e = e'
        · subst he
          rw [Function.update_same, if_neg (by exact fun hh => hnotin hh),
            if_pos (List.mem_cons_self _ _), List.append_nil, hce]
        · rw [Function.update_noteq he]
          by_cases hes : e ∈ es
          · rw [if_pos hes, if_pos (List.mem_cons_of_mem _ hes)]
          · rw [if_neg hes, if_neg (by
              intro hh
              rcases List.mem_cons.mp hh with hh | hh
              · exact he hh
              · exact hes hh)]

/-- Composing a run over `l₁ ++ l₂` when `l₁` fails: `l₂` never runs. -/
theorem runEntities_append_err (l₁ l₂ : List Entity) (db : DB α) (v : ε)
    (h : (runEntities env fails l₁ db).2.2 = some v) :
    runEntities env fails (l₁ ++ l₂) db = runEntities env fails l₁ db := by
  induction l₁ generalizing db with
  | nil => simp [runEntities] at h
  | cons e es ih =>
      rcases hf : (seedEntityGo (fails e) 0 (env e)).2.2 with _ | err
      · simp only [runEntities, hf] at h ⊢
        rw [List.append_eq, ih _ h]
      · simp only [runEntities, hf]

/-- Composing a run over `l₁ ++ l₂` when `l₁` resolves: `l₂` continues
from `l₁`'s database, traces concatenate. -/
theorem runEntities_append_ok (l₁ l₂ : List Entity) (db : DB α)
    (h : (runEntities env fails l₁ db).2.2 = none) :
    runEntities env fails (l₁ ++ l₂) db
      = ((runEntities env fails l₁ db).1
            ++ (runEntities env fails l₂ ((runEntities env fails l₁ db).2.1)).1,
         (runEntities env fails l₂ ((runEntities env fails l₁ db).2.1)).2.1,
         (runEntities env fails l₂ ((runEntities env fails l₁ db).2.1)).2.2) := by
  induction l₁ generalizing db with
  | nil => simp [runEntities]
  | cons e es ih =>
      rcases hf : (seedEntityGo (fails e) 0 (env e)).2.2 with _ | err
      · simp only [runEntities, hf] at h ⊢
        rw [List.append_eq, ih _ h]
        simp [List.append_assoc]
      · simp only [runEntities, hf] at h
        cases h

end RunLemmas

section RunTheorems

variable {α ε : Type}

/-- Claim C8: in every run of `runSeeders` — any environment, any
failure pattern, any prior database — the drop-and-recreate schema sync
is issued exactly once, as the first event, before any record insert. -/
theorem c8_sync_once_before_inserts (env : Entity → List (List α))
    (fails : Entity → Nat → Option ε) (db₀ : DB α) :
    ∃ t, (runSeeders env fails db₀).1 = Event.sync :: t
      ∧ (∀ ev ∈ t, ev ≠ Event.sync)
      ∧ (runSeeders env fails db₀).1.count Event.sync = 1 := by
  refine ⟨(runEntities env fails seederOrder (fun _ => [])).1, rfl, ?_, ?_⟩
  · intro ev hev
    rcases runEntities_events env fails seederOrder _ ev hev with ⟨e, i, rfl, _⟩
    intro hc
    cases hc
  · show (Event.sync :: (runEntities env fails seederOrder (fun _ => [])).1).count Event.sync = 1
    rw [List.count_cons_self]
    have h0 : (runEntities env fails seederOrder (fun _ => [])).1.count Event.sync = 0 := by
      apply List.count_eq_zero.mpr
      intro hmem
      rcases runEntities_events env fails seederOrder _ _ hmem with ⟨e, i, heq, _⟩
      cases heq
    rw [h0]

/-- Claim C9: `runCompleteSeeder` syncs with `alter: true` — no table is
dropped and no existing row is deleted or updated; whatever rows the
database already holds are still there, in place, after the run (its
inserts are purely additive), for every environment and failure pattern. -/
theorem c9_complete_seeder_additive (env : Entity → List (List α))
    (fails : Entity → Nat → Option ε) (db₀ : DB α) (e : Entity) :
    ∃ added, (runCompleteSeeder env fails db₀).2.1 e = db₀ e ++ added :=
  runEntities_append_only env fails completeSeederOrder db₀ e

/-- Every entity of `seederOrder` whose seeder resolves has, at that
point, its whole file committed; packaged for one decomposition
`seederOrder = pre ++ d :: post` of the registry order.  The split
property says: the run's trace cuts into a prefix with no insert of `e`
and a suffix with no insert of `d`, and whenever any insert of `e` was
issued at all, `d`'s table already holds its complete file in the final
database. -/
theorem runSeeders_dep_split (env : Entity → List (List α))
    (fails : Entity → Nat → Option ε) (db₀ : DB α) (d e : Entity)
    (pre post : List Entity)
    (horder : seederOrder = pre ++ d :: post)
    (hepre : e ∉ pre) (hed : e ≠ d) (hdpost : d ∉ post) :
    (∃ t₁ t₂, (runSeeders env fails db₀).1 = t₁ ++ t₂
        ∧ (∀ i, Event.insert e i ∉ t₁) ∧ (∀ i, Event.insert d i ∉ t₂))
      ∧ ((∃ i, Event.insert e i ∈ (runSeeders env fails db₀).1) →
          (runSeeders env fails db₀).2.1 d = (env d).flatten) := by
  have hnodup : (pre ++ d :: post).Nodup := by
    rw [← horder]
    decide
  have hdpre : d ∉ pre := by
    intro hmem
    have hdisj := (List.nodup_append.mp hnodup).2.2
    exact hdisj hmem (List.mem_cons_self _ _)
  have hsplit : seederOrder = (pre ++ [d]) ++ post := by
    rw [horder, List.append_assoc]
    rfl
  have hepred : e ∉ pre ++ [d] := by
    intro hmem
    rcases List.mem_append.mp hmem with hmem | hmem
    · exact hepre hmem
    · exact hed (List.mem_singleton.mp hmem)
  have hrs1 : (runSeeders env fails db₀).1
      = Event.sync :: (runEntities env fails seederOrder (fun _ => [])).1 := rfl
  have hrs2 : (runSeeders env fails db₀).2.1
      = (runEntities env fails seederOrder (fun _ => [])).2.1 := rfl
  rcases herr : (runEntities env fails (pre ++ [d]) (fun _ => []) : List Event × DB α × Option ε).2.2
    with _ | v
  · -- `pre ++ [d]` resolved: `d`'s file is fully committed and stays
    have hrun := runEntities_append_ok env fails (pre ++ [d]) post (fun _ => []) herr
    rw [← hsplit] at hrun
    have hdfull : (runEntities env fails (pre ++ [d]) (fun _ => [])).2.1 d
        = (env d).flatten := by
      rcases herrp : (runEntities env fails pre (fun _ => ([] : List α))).2.2 with _ | w
      · have h1 := runEntities_append_ok env fails pre [d] (fun _ => []) herrp
        have hgoerr : (seedEntityGo (fails d) 0 (env d)).2.2 = none := by
          rcases hx : (seedEntityGo (fails d) 0 (env d)).2.2 with _ | w
          · rfl
          · exfalso
            have hx2 : (runEntities env fails (pre ++ [d]) (fun _ => [])
                : List Event × DB α × Option ε).2.2 = some w := by
              rw [h1]
              show (runEntities env fails [d]
                  ((runEntities env fails pre (fun _ => [])).2.1)).2.2 = some w
              simp only [runEntities, hx]
            rw [herr] at hx2
            cases hx2
        have hdb1 : (runEntities env fails (pre ++ [d]) (fun _ => [])).2.1 d
            = (runEntities env fails pre (fun _ => ([] : List α))).2.1 d
                ++ (seedEntityGo (fails d) 0 (env d)).2.1 := by
          rw [h1]
          show (runEntities env fails [d]
              ((runEntities env fails pre (fun _ => [])).2.1)).2.1 d = _
          simp only [runEntities, hgoerr]
          show Function.update (runEntities env fails pre (fun _ => ([] : List α))).2.1 d
              ((runEntities env fails pre (fun _ => [])).2.1 d
                ++ (seedEntityGo (fails d) 0 (env d)).2.1) d = _
          rw [Function.update_same]
        rw [hdb1, runEntities_untouched env fails pre (fun _ => []) d hdpre,
          seedEntityGo_committed_of_ok (fails d) (env d) 0 hgoerr]
        rfl
      · exfalso
        have h1 := runEntities_append_err env fails pre [d] (fun _ => []) w herrp
        have hx2 : (runEntities env fails (pre ++ [d]) (fun _ => [])
            : List Event × DB α × Option ε).2.2 = some w := by rw [h1, herrp]
        rw [herr] at hx2
        cases hx2
    refine ⟨⟨Event.sync :: (runEntities env fails (pre ++ [d]) (fun _ => [])).1,
        (runEntities env fails post
          ((runEntities env fails (pre ++ [d]) (fun _ => [])).2.1)).1, ?_, ?_, ?_⟩, ?_⟩
    · rw [hrs1, hsplit, runEntities_append_ok env fails (pre ++ [d]) post (fun _ => []) herr]
      rfl
    · intro i hmem
      rcases List.mem_cons.mp hmem with hc | hc
      · cases hc
      · rcases runEntities_events env fails _ _ _ hc with ⟨e', i', heq, hmem'⟩
        cases heq
        exact hepred hmem'
    · intro i hmem
      rcases runEntities_events env fails _ _ _ hmem with ⟨e', i', heq, hmem'⟩
      cases heq
      exact hdpost hmem'
    · intro _
      rw [hrs2, hrun]
      show (runEntities env fails post
          ((runEntities env fails (pre ++ [d]) (fun _ => [])).2.1)).2.1 d = _
      rw [runEntities_untouched env fails post _ d hdpost, hdfull]
  · -- the run dies in `pre ++ [d]`: nothing of `e` is ever issued
    have hrun : runEntities env fails seederOrder (fun _ => ([] : List α))
        = runEntities env fails (pre ++ [d]) (fun _ => []) := by
      rw [hsplit, runEntities_append_err env fails _ post (fun _ => []) v herr]
    have hnoe : ∀ i, Event.insert e i ∉ (runSeeders env fails db₀).1 := by
      intro i hmem
      rw [hrs1] at hmem
      rcases List.mem_cons.mp hmem with hc | hc
      · cases hc
      · rw [hrun] at hc
        rcases runEntities_events env fails _ _ _ hc with ⟨e', i', heq, hmem'⟩
        cases heq
        exact hepred hmem'
    refine ⟨⟨(runSeeders env fails db₀).1, [], by rw [List.append_nil], ?_, by simp⟩, ?_⟩
    · intro i
      exact hnoe i
    · intro ⟨i, hmem⟩
      exact absurd hmem (hnoe i)

/-- Claim C1: in every run of `runSeeders` — any record environment, any
failure pattern — and for every entity `E` of the registry with its
declared `dependsOn` set, the trace splits into a prefix holding no insert
of `E` and a suffix holding no insert of the dependency; and if any insert
of `E` was issued at all, the dependency's table holds its complete file
(all records inserted successfully) in the final database. -/
theorem c1_fk_dependency_order (env : Entity → List (List α))
    (fails : Entity → Nat → Option ε) (db₀ : DB α) (e d : Entity)
    (hd : d ∈ dependsOn e) :
    (∃ t₁ t₂, (runSeeders env fails db₀).1 = t₁ ++ t₂
        ∧ (∀ i, Event.insert e i ∉ t₁) ∧ (∀ i, Event.insert d i ∉ t₂))
      ∧ ((∃ i, Event.insert e i ∈ (runSeeders env fails db₀).1) →
          (runSeeders env fails db₀).2.1 d = (env d).flatten) := by
  cases e with
  | roles =>
      simp only [dependsOn] at hd
      exact absurd hd (List.not_mem_nil d)
  | genders =>
      simp only [dependsOn] at hd
      exact absurd hd (List.not_mem_nil d)
  | categories =>
      simp only [dependsOn] at hd
      exact absurd hd (List.not_mem_nil d)
  | paymentMethods =>
      simp only [dependsOn] at hd
      exact absurd hd (List.not_mem_nil d)
  | banks =>
      simp only [dependsOn] at hd
      exact absurd hd (List.not_mem_nil d)
  | orderStatuses =>
      simp only [dependsOn] at hd
      exact absurd hd (List.not_mem_nil d)
  | countries =>
      simp only [dependsOn] at hd
      exact absurd hd (List.not_mem_nil d)
  | departments =>
      simp only [dependsOn] at hd
      exact absurd hd (List.not_mem_nil d)
  | cities =>
      simp only [dependsOn] at hd
      exact absurd hd (List.not_mem_nil d)
  | references =>
      simp only [dependsOn] at hd
      exact absurd hd (List.not_mem_nil d)
  | accesses =>
      simp only [dependsOn, List.mem_singleton] at hd
      subst hd
      exact runSeeders_dep_split env fails db₀ _ _ (seederOrder.take 0) (seederOrder.drop 1)
          (by decide) (by decide) (by decide) (by decide)
  | users =>
      simp only [dependsOn, List.mem_cons, List.not_mem_nil, or_false] at hd
      rcases hd with rfl | rfl
      · exact runSeeders_dep_split env fails db₀ _ _ (seederOrder.take 9) (seederOrder.drop 10)
          (by decide) (by decide) (by decide) (by decide)
      · exact runSeeders_dep_split env fails db₀ _ _ (seederOrder.take 1) (seederOrder.drop 2)
          (by decide) (by decide) (by decide) (by decide)
  | products =>
      simp only [dependsOn, List.mem_singleton] at hd
      subst hd
      exact runSeeders_dep_split env fails db₀ _ _ (seederOrder.take 2) (seederOrder.drop 3)
          (by decide) (by decide) (by decide) (by decide)
  | orders =>
      simp only [dependsOn, List.mem_cons, List.not_mem_nil, or_false] at hd
      rcases hd with rfl | rfl | rfl | rfl
      · exact runSeeders_dep_split env fails db₀ _ _ (seederOrder.take 10) (seederOrder.drop 11)
          (by decide) (by decide) (by decide) (by decide)
      · exact runSeeders_dep_split env fails db₀ _ _ (seederOrder.take 3) (seederOrder.drop 4)
          (by decide) (by decide) (by decide) (by decide)
      · exact runSeeders_dep_split env fails db₀ _ _ (seederOrder.take 4) (seederOrder.drop 5)
          (by decide) (by decide) (by decide) (by decide)
      · exact runSeeders_dep_split env fails db₀ _ _ (seederOrder.take 5) (seederOrder.drop 6)
          (by decide) (by decide) (by decide) (by decide)
  | addresses =>
      simp only [dependsOn, List.mem_cons, List.not_mem_nil, or_false] at hd
      rcases hd with rfl | rfl | rfl | rfl
      · exact runSeeders_dep_split env fails db₀ _ _ (seederOrder.take 8) (seederOrder.drop 9)
          (by decide) (by decide) (by decide) (by decide)
      · exact runSeeders_dep_split env fails db₀ _ _ (seederOrder.take 7) (seederOrder.drop 8)
          (by decide) (by decide) (by decide) (by decide)
      · exact runSeeders_dep_split env fails db₀ _ _ (seederOrder.take 6) (seederOrder.drop 7)
          (by decide) (by decide) (by decide) (by decide)
      · exact runSeeders_dep_split env fails db₀ _ _ (seederOrder.take 10) (seederOrder.drop 11)
          (by decide) (by decide) (by decide) (by decide)
  | orderDetails =>
      simp only [dependsOn, List.mem_cons, List.not_mem_nil, or_false] at hd
      rcases hd with rfl | rfl
      · exact runSeeders_dep_split env fails db₀ _ _ (seederOrder.take 12) (seederOrder.drop 13)
          (by decide) (by decide) (by decide) (by decide)
      · exact runSeeders_dep_split env fails db₀ _ _ (seederOrder.take 11) (seederOrder.drop 12)
          (by decide) (by decide) (by decide) (by decide)

/-- Concrete environment for witnesses: every entity one single-row unit,
addresses two units, rows numbered. -/
def c1Env : Entity → List (List Nat)
  | .addresses => [[101], [102]]
  | _ => [[1]]

/-- No-failure oracle. -/
def noFails : Entity → Nat → Option Nat := fun _ _ => none

/-- Empty initial database. -/
def emptyDB : DB Nat := fun _ => []

/-- Witness for C1 at a concrete run and the dependency
`users dependsOn accesses`. -/
theorem c1_witness :
    Entity.accesses ∈ dependsOn Entity.users
      ∧ ((∃ t₁ t₂, (runSeeders c1Env noFails emptyDB).1 = t₁ ++ t₂
            ∧ (∀ i, Event.insert Entity.users i ∉ t₁)
            ∧ (∀ i, Event.insert Entity.accesses i ∉ t₂))
          ∧ ((∃ i, Event.insert Entity.users i ∈ (runSeeders c1Env noFails emptyDB).1) →
              (runSeeders c1Env noFails emptyDB).2.1 Entity.accesses
                = (c1Env Entity.accesses).flatten)) :=
  ⟨by decide,
    c1_fk_dependency_order c1Env noFails emptyDB Entity.users Entity.accesses (by decide)⟩

/-- Master characterization of a run whose first rejected insert is unit
`j` of entity `k`: error value, committed state of every entity, and the
absence of inserts for entities past `k`. -/
theorem runSeeders_first_fail (env : Entity → List (List α))
    (fails : Entity → Nat → Option ε) (db₀ : DB α)
    (pre post : List Entity) (k : Entity) (j : Nat) (v : ε)
    (horder : seederOrder = pre ++ k :: post)
    (hpre : ∀ e ∈ pre, ∀ i < (env e).length, fails e i = none)
    (hj : j < (env k).length) (hfv : fails k j = some v)
    (hjb : ∀ i < j, fails k i = none) :
    (runSeeders env fails db₀).2.2 = some v
      ∧ (∀ e ∈ pre, (runSeeders env fails db₀).2.1 e = (env e).flatten)
      ∧ (runSeeders env fails db₀).2.1 k = ((env k).take j).flatten
      ∧ (∀ e ∈ post, (runSeeders env fails db₀).2.1 e = [])
      ∧ (∀ e ∈ post, ∀ i, Event.insert e i ∉ (runSeeders env fails db₀).1) := by
  have hnodup : (pre ++ k :: post).Nodup := by
    rw [← horder]
    decide
  have hprend : pre.Nodup := (List.nodup_append.mp hnodup).1
  have hdisj := (List.nodup_append.mp hnodup).2.2
  have hkpre : k ∉ pre := fun hmem => hdisj hmem (List.mem_cons_self _ _)
  rcases runEntities_success env fails pre (fun _ => ([] : List α)) hprend hpre
    with ⟨herrp, hdbp⟩
  have hknotpost : k ∉ post := by
    have := (List.nodup_append.mp hnodup).2.1
    exact (List.nodup_cons.mp this).1
  have hgo : seedEntityGo (fails k) 0 (env k)
      = ((List.range (j + 1)).map (fun x => 0 + x), ((env k).take j).flatten, some v) :=
    seedEntityGo_first_fail (fails k) (env k) 0 j v hj
      (by rwa [Nat.zero_add]) (by intro i hi; rw [Nat.zero_add]; exact hjb i hi)
  have happ := runEntities_append_ok env fails pre (k :: post) (fun _ => []) herrp
  have hkstep : runEntities env fails (k :: post)
        ((runEntities env fails pre (fun _ => ([] : List α))).2.1)
      = ((seedEntityGo (fails k) 0 (env k)).1.map (Event.insert k),
         Function.update ((runEntities env fails pre (fun _ => ([] : List α))).2.1) k
           (((runEntities env fails pre (fun _ => ([] : List α))).2.1) k
              ++ (seedEntityGo (fails k) 0 (env k)).2.1),
         some v) := by
    have hse : (seedEntityGo (fails k) 0 (env k)).2.2 = some v := by rw [hgo]
    simp only [runEntities, hse]
  have hrs2 : (runSeeders env fails db₀).2.1
      = (runEntities env fails seederOrder (fun _ => [])).2.1 := rfl
  have hrs3 : (runSeeders env fails db₀).2.2
      = (runEntities env fails seederOrder (fun _ => [])).2.2 := rfl
  have hfinal2 : (runSeeders env fails db₀).2.1
      = Function.update ((runEntities env fails pre (fun _ => ([] : List α))).2.1) k
          (((runEntities env fails pre (fun _ => ([] : List α))).2.1) k
            ++ (seedEntityGo (fails k) 0 (env k)).2.1) := by
    rw [hrs2, horder, happ, hkstep]
  have hfinal3 : (runSeeders env fails db₀).2.2 = some v := by
    rw [hrs3, horder, happ, hkstep]
  have hcommit : (seedEntityGo (fails k) 0 (env k)).2.1 = ((env k).take j).flatten := by
    rw [hgo]
  have hrs1 : (runSeeders env fails db₀).1
      = Event.sync :: (runEntities env fails seederOrder (fun _ => [])).1 := rfl
  have hfinal1 : (runSeeders env fails db₀).1
      = Event.sync :: ((runEntities env fails pre (fun _ => ([] : List α))).1
          ++ (seedEntityGo (fails k) 0 (env k)).1.map (Event.insert k)) := by
    rw [hrs1, horder, happ, hkstep]
  refine ⟨hfinal3, ?_, ?_, ?_, ?_⟩
  · intro e hmem
    have hek : ¬ k = e := fun hh => hkpre (hh ▸ hmem)
    rw [hfinal2, Function.update_noteq (fun hh => hek hh.symm), hdbp e,
      if_pos hmem, List.nil_append]
  · rw [hfinal2, Function.update_same, hdbp k, if_neg hkpre, List.append_nil,
      List.nil_append, hcommit]
  · intro e hmem
    have hek : ¬ k = e := fun hh => hknotpost (hh ▸ hmem)
    have hepre : e ∉ pre := fun hc => hdisj hc (List.mem_cons_of_mem _ hmem)
    rw [hfinal2, Function.update_noteq (fun hh => hek hh.symm), hdbp e,
      if_neg hepre, List.append_nil]
  · intro e hmem i hmemins
    have hek : e ≠ k := fun hh => hknotpost (hh ▸ hmem)
    have hepre : e ∉ pre := fun hc => hdisj hc (List.mem_cons_of_mem _ hmem)
    rw [hfinal1] at hmemins
    rcases List.mem_cons.mp hmemins with hc | hc
    · cases hc
    · rcases List.mem_append.mp hc with hc | hc
      · rcases runEntities_events env fails _ _ _ hc with ⟨e', i', heq, hmem'⟩
        cases heq
        exact hepre hmem'
      · rcases List.mem_map.mp hc with ⟨i', _, heq⟩
        cases heq
        exact hek rfl

/-- Claim C2 (amended): when the run's first rejected insert is unit `j`
of entity `k` (all earlier entities clean), the run rejects with that
error; the entities before `k` in registry order stay fully committed;
the entities after `k` are completely absent; and `k` itself retains
exactly the units committed before the failing insert — a prefix of its
file, empty only when the failing insert is the entity's first (or its
single batch). -/
theorem c2_failure_frame (env : Entity → List (List α))
    (fails : Entity → Nat → Option ε) (db₀ : DB α)
    (pre post : List Entity) (k : Entity) (j : Nat) (v : ε)
    (horder : seederOrder = pre ++ k :: post)
    (hpre : ∀ e ∈ pre, ∀ i < (env e).length, fails e i = none)
    (hj : j < (env k).length) (hfv : fails k j = some v)
    (hjb : ∀ i < j, fails k i = none) :
    (runSeeders env fails db₀).2.2 = some v
      ∧ (∀ e ∈ pre, (runSeeders env fails db₀).2.1 e = (env e).flatten)
      ∧ (runSeeders env fails db₀).2.1 k = ((env k).take j).flatten
      ∧ (∀ e ∈ post, (runSeeders env fails db₀).2.1 e = []) := by
  rcases runSeeders_first_fail env fails db₀ pre post k j v horder hpre hj hfv hjb
    with ⟨h1, h2, h3, h4, _⟩
  exact ⟨h1, h2, h3, h4⟩

/-- Failure oracle rejecting the second insert of the address seeder. -/
def c2Fails : Entity → Nat → Option Nat
  | .addresses, 1 => some 42
  | _, _ => none

/-- Claim C2, counterexample: with two address records and the second
insert rejecting, the k-th (addresses) seeder fails, yet its table is not
absent — the record inserted before the failure stays committed, because
the per-record loop has no transaction around the entity. -/
theorem c2_counterexample :
    (runSeeders c1Env c2Fails emptyDB).2.2 = some 42
      ∧ (runSeeders c1Env c2Fails emptyDB).2.1 Entity.addresses = [101]
      ∧ ¬ (runSeeders c1Env c2Fails emptyDB).2.1 Entity.addresses = [] := by
  refine ⟨by decide, by decide, by decide⟩

/-- Witness for C2 (amended) at the concrete failing run. -/
theorem c2_witness :
    (seederOrder = seederOrder.take 13 ++ Entity.addresses :: seederOrder.drop 14)
      ∧ (runSeeders c1Env c2Fails emptyDB).2.2 = some 42
      ∧ (runSeeders c1Env c2Fails emptyDB).2.1 Entity.addresses
          = ((c1Env Entity.addresses).take 1).flatten
      ∧ (∀ e ∈ seederOrder.drop 14, (runSeeders c1Env c2Fails emptyDB).2.1 e = []) := by
  have h := c2_failure_frame c1Env c2Fails emptyDB
    (seederOrder.take 13) (seederOrder.drop 14) Entity.addresses 1 42
    (by decide) (by decide) (by decide) (by decide) (by decide)
  exact ⟨by decide, h.1, h.2.2.1, h.2.2.2⟩

/-! ### Per-entity success logging (claim C3)

The string each seeder logs on success, as a function of the record
count, transcribed from the `console.log` call of each seeder. -/

/-- Decimal characters of a count as JS prints it. -/
def natChars (n : Nat) : List Char := (toString n).data

/-- The success log line of each entity's seeder. -/
def successMessage : Entity → Nat → List Char
  | .roles, n => chars "✅ " ++ natChars n ++ chars " roles created from CSV"
  | .genders, n => chars "✅ " ++ natChars n ++ chars " genders created from CSV"
  | .categories, n => chars "✅ " ++ natChars n ++ chars " categories created from CSV"
  | .paymentMethods, n => chars "✅ " ++ natChars n ++ chars " payment methods created from CSV"
  | .banks, n => chars "✅ " ++ natChars n ++ chars " banks created from CSV"
  | .orderStatuses, n => chars "✅ " ++ natChars n ++ chars " order statuses created from CSV"
  | .countries, n => chars "✅ " ++ natChars n ++ chars " countries created from CSV"
  | .departments, n => chars "✅ " ++ natChars n ++ chars " departments created from CSV"
  | .cities, n => chars "✅ " ++ natChars n ++ chars " cities created from CSV"
  | .accesses, n => chars "✅ " ++ natChars n ++ chars " accesses created from CSV"
  | .users, n => chars "✅ " ++ natChars n ++ chars " users created from CSV"
  | .products, n => chars "✅ " ++ natChars n ++ chars " products created from CSV"
  | .orders, n => chars "✅ " ++ natChars n ++ chars " orders created"
  | .addresses, _ => chars "✅ Addresses seeded successfully"
  | .orderDetails, _ => chars "✅ Order details seeded successfully"
  | .references, n => chars "✅ " ++ natChars n ++ chars " Reference records created"

/-- Whether `small` occurs as one character-prefix of `big`. -/
def leadsChars : List Char → List Char → Bool
  | [], _ => true
  | _ :: _, [] => false
  | a :: as, b :: bs => decide (a = b) && leadsChars as bs

/-- Whether `small` occurs contiguously anywhere inside `big`. -/
def containsSub (big small : List Char) : Bool :=
  leadsChars small big ||
    match big with
    | [] => false
    | _ :: rest => containsSub rest small

theorem leadsChars_append (m r : List Char) : leadsChars m (m ++ r) = true := by
  induction m with
  | nil => rfl
  | cons a as ih => simp [leadsChars, ih]

theorem containsSub_of_leads (big small : List Char)
    (h : leadsChars small big = true) : containsSub big small = true := by
  cases big with
  | nil => simp [containsSub, h]
  | cons c rest => simp [containsSub, h]

theorem containsSub_append (l m r : List Char) :
    containsSub (l ++ m ++ r) m = true := by
  induction l with
  | nil => exact containsSub_of_leads _ _ (leadsChars_append m r)
  | cons c l ih =>
      show (leadsChars m (c :: (l ++ m ++ r)) || containsSub (l ++ m ++ r) m) = true
      rw [ih, Bool.or_true]

/-- Claim C3, counterexample to the per-entity-count conjunct: the
address seeder's success log is a fixed sentence; it never contains the
record count (here: zero) and does not change with it. -/
theorem c3_addresses_no_count_counterexample :
    Entity.addresses ∈ seederOrder
      ∧ containsSub (successMessage Entity.addresses 0) (natChars 0) = false
      ∧ successMessage Entity.addresses 0 = successMessage Entity.addresses 1 := by
  refine ⟨by decide, by decide, rfl⟩

/-- Claim C3 (amended): if a seeder rejects, `runSeeders` aborts the
remaining entities (no insert of any later entity is ever issued),
rethrows that first error unchanged, and the standalone process exits 1;
if every insert resolves, the run resolves and the process exits 0, and
every seeder except the address and order-detail seeders logs a success
message carrying its record count — those two log fixed sentences with no
count. -/
theorem c3_error_propagation_exit_codes (α ε : Type) :
    (∀ (env : Entity → List (List α)) (fails : Entity → Nat → Option ε) (db₀ : DB α)
        (pre post : List Entity) (k : Entity) (j : Nat) (v : ε),
        seederOrder = pre ++ k :: post →
        (∀ e ∈ pre, ∀ i < (env e).length, fails e i = none) →
        j < (env k).length → fails k j = some v → (∀ i < j, fails k i = none) →
        (runSeeders env fails db₀).2.2 = some v
          ∧ standaloneExitCode (runSeeders env fails db₀).2.2 = 1
          ∧ ∀ e ∈ post, ∀ i, Event.insert e i ∉ (runSeeders env fails db₀).1)
      ∧ (∀ (env : Entity → List (List α)) (fails : Entity → Nat → Option ε) (db₀ : DB α),
          (∀ e i, fails e i = none) →
          (runSeeders env fails db₀).2.2 = none
            ∧ standaloneExitCode (runSeeders env fails db₀).2.2 = 0)
      ∧ (∀ e ∈ seederOrder, e ≠ Entity.addresses → e ≠ Entity.orderDetails →
          ∀ n, containsSub (successMessage e n) (natChars n) = true)
      ∧ (∀ n, successMessage Entity.addresses n = successMessage Entity.addresses 0)
      ∧ (∀ n, successMessage Entity.orderDetails n = successMessage Entity.orderDetails 0) := by
  refine ⟨?_, ?_, ?_, fun n => rfl, fun n => rfl⟩
  · intro env fails db₀ pre post k j v horder hpre hj hfv hjb
    rcases runSeeders_first_fail env fails db₀ pre post k j v horder hpre hj hfv hjb
      with ⟨h1, _, _, _, h5⟩
    refine ⟨h1, ?_, h5⟩
    rw [h1]
    rfl
  · intro env fails db₀ hok
    have h := runEntities_success env fails seederOrder (fun _ => []) (by decide)
      (fun e _ j _ => hok e j)
    have herr : (runSeeders env fails db₀).2.2 = none := h.1
    refine ⟨herr, ?_⟩
    rw [herr]
    rfl
  · intro e hmem hna hnod n
    cases e
    case addresses => exact absurd rfl hna
    case orderDetails => exact absurd rfl hnod
    case references => exact absurd hmem (by decide)
    all_goals exact containsSub_append _ _ _

/-- Witness for C3 at a concrete all-success run. -/
theorem c3_witness :
    (∀ e i, noFails e i = none)
      ∧ (runSeeders c1Env noFails emptyDB).2.2 = none
      ∧ standaloneExitCode (runSeeders c1Env noFails emptyDB).2.2 = 0 :=
  ⟨fun _ _ => rfl,
    ((c3_error_propagation_exit_codes Nat Nat).2.1 c1Env noFails emptyDB
      (fun _ _ => rfl)).1,
    ((c3_error_propagation_exit_codes Nat Nat).2.1 c1Env noFails emptyDB
      (fun _ _ => rfl)).2⟩

/-- Claim C7: a run beginning with the drop-and-recreate reset is
idempotent in effect — a second `runSeeders` over the first run's
database produces the identical database, row counts included — whereas
`runCompleteSeeder`'s alter-mode sync lets the insert phase run against
the existing rows, so running it twice duplicates every seeded row and
the counts differ whenever an entity seeds at least one row. -/
theorem c7_reset_idempotent_no_reset_duplicates (α ε : Type) :
    (∀ (env : Entity → List (List α)) (fails : Entity → Nat → Option ε) (db₀ : DB α),
        (runSeeders env fails ((runSeeders env fails db₀).2.1)).2.1
          = (runSeeders env fails db₀).2.1)
      ∧ (∀ (env : Entity → List (List α)) (fails : Entity → Nat → Option ε),
          (∀ e i, fails e i = none) →
          ∀ e ∈ completeSeederOrder,
            (runCompleteSeeder env fails
                ((runCompleteSeeder env fails (fun _ => [])).2.1)).2.1 e
              = (env e).flatten ++ (env e).flatten
            ∧ ((env e).flatten ≠ [] →
                ((runCompleteSeeder env fails
                    ((runCompleteSeeder env fails (fun _ => [])).2.1)).2.1 e).length
                  ≠ ((runCompleteSeeder env fails (fun _ => [])).2.1 e).length)) := by
  constructor
  · intro env fails db₀
    rfl
  · intro env fails hok e hmem
    have h1 := runEntities_success env fails completeSeederOrder (fun _ => []) (by decide)
      (fun e _ j _ => hok e j)
    have h2 := runEntities_success env fails completeSeederOrder
      ((runCompleteSeeder env fails (fun _ => [])).2.1) (by decide)
      (fun e _ j _ => hok e j)
    have hdb1 : (runCompleteSeeder env fails (fun _ => ([] : List α))).2.1 e
        = (env e).flatten := by
      have := h1.2 e
      rw [if_pos hmem] at this
      rw [show (runCompleteSeeder env fails (fun _ => ([] : List α)))
          = runEntities env fails completeSeederOrder (fun _ => []) from rfl, this]
      rfl
    have hdb2 : (runCompleteSeeder env fails
        ((runCompleteSeeder env fails (fun _ => ([] : List α))).2.1)).2.1 e
        = (env e).flatten ++ (env e).flatten := by
      have := h2.2 e
      rw [if_pos hmem] at this
      rw [show (runCompleteSeeder env fails
            ((runCompleteSeeder env fails (fun _ => ([] : List α))).2.1))
          = runEntities env fails completeSeederOrder
            ((runCompleteSeeder env fails (fun _ => [])).2.1) from rfl, this, hdb1]
    refine ⟨hdb2, ?_⟩
    intro hne
    rw [hdb1, hdb2, List.length_append]
    have : (env e).flatten.length ≠ 0 := by
      intro hz
      exact hne (List.length_eq_zero.mp hz)
    omega

/-- Witness for C7 at a concrete environment. -/
theorem c7_witness :
    (∀ e i, noFails e i = none)
      ∧ Entity.countries ∈ completeSeederOrder
      ∧ (runCompleteSeeder c1Env noFails
            ((runCompleteSeeder c1Env noFails (fun _ => [])).2.1)).2.1 Entity.countries
          = (c1Env Entity.countries).flatten ++ (c1Env Entity.countries).flatten :=
  ⟨fun _ _ => rfl, by decide,
    ((c7_reset_idempotent_no_reset_duplicates Nat Nat).2 c1Env noFails
      (fun _ _ => rfl) Entity.countries (by decide)).1⟩

end RunTheorems


/-! ## Grouping (claim C10)

`seedOrderDetails` (`order-detail.seeder.ts`) groups its parsed rows with

```
const orderGroups = orderDetails.reduce((groups, detail) => {
  const orderId = detail.order_id;
  if (!groups[orderId]) groups[orderId] = [];
  groups[orderId].push({ price: detail.subtotal / detail.amount, quantity: detail.amount });
  return groups;
}, {});
```

modelled as a fold over (key, item) pairs into an association list of
groups, with JS's `Object.entries` enumeration order (ascending
integer-like keys first) applied when the groups are iterated. -/

section Grouping

variable {κ ι : Type} [DecidableEq κ]

/-- Append an item to its key's group, creating the group at the end on
first sight of the key (JS object insertion order). -/
def addToGroup : List (κ × List ι) → κ → ι → List (κ × List ι)
  | [], k, it => [(k, [it])]
  | g :: gs, k, it => if g.1 = k then (k, g.2 ++ [it]) :: gs else g :: addToGroup gs k it

/-- The reduce: fold every (key, item) pair into the groups. -/
def groupPairs (ps : List (κ × ι)) : List (κ × List ι) :=
  ps.foldl (fun gs p => addToGroup gs p.1 p.2) []

/-- Keys in order of first occurrence, deduplicated. -/
def firstKeys : List κ → List κ
  | [] => []
  | k :: ks => k :: (firstKeys ks).filter (fun k' => ¬ k' = k)

/-- All items carrying a key, in order. -/
def groupOf (ps : List (κ × ι)) (k : κ) : List ι :=
  (ps.filter (fun p => p.1 = k)).map (fun p => p.2)

/-- The closed form of the reduce. -/
def canonGroups (ps : List (κ × ι)) : List (κ × List ι) :=
  (firstKeys (ps.map (fun p => p.1))).map (fun k => (k, groupOf ps k))

theorem mem_firstKeys (l : List κ) (k : κ) : k ∈ firstKeys l ↔ k ∈ l := by
  induction l with
  | nil => simp [firstKeys]
  | cons k' ks ih =>
      simp only [firstKeys, List.mem_cons, List.mem_filter, ih]
      constructor
      · rintro (rfl | ⟨h, _⟩)
        · exact Or.inl rfl
        · exact Or.inr h
      · rintro (rfl | h)
        · exact Or.inl rfl
        · by_cases hk : k = k'
          · exact Or.inl hk
          · exact Or.inr ⟨h, by simpa using hk⟩

theorem nodup_firstKeys (l : List κ) : (firstKeys l).Nodup := by
  induction l with
  | nil => simp [firstKeys]
  | cons k ks ih =>
      simp only [firstKeys]
      refine List.nodup_cons.mpr ⟨?_, ih.filter _⟩
      intro hmem
      rcases List.mem_filter.mp hmem with ⟨_, hne⟩
      simp at hne

theorem firstKeys_append_single (l : List κ) (k : κ) :
    firstKeys (l ++ [k]) = if k ∈ l then firstKeys l else firstKeys l ++ [k] := by
  induction l with
  | nil => simp [firstKeys]
  | cons a l ih =>
      rw [List.cons_append,
        show firstKeys (a :: (l ++ [k]))
          = a :: (firstKeys (l ++ [k])).filter (fun k' => ¬ k' = a) from rfl,
        ih,
        show firstKeys (a :: l)
          = a :: (firstKeys l).filter (fun k' => ¬ k' = a) from rfl]
      by_cases hk : k ∈ l
      · rw [if_pos hk, if_pos (List.mem_cons_of_mem _ hk)]
      · rw [if_neg hk]
        by_cases hka : k = a
        · rw [if_pos (hka ▸ List.mem_cons_self _ _), List.filter_append]
          simp [hka]
        · rw [if_neg (by
              intro hc
              rcases List.mem_cons.mp hc with hc | hc
              · exact hka hc
              · exact hk hc), List.filter_append]
          simp only [List.filter_cons, List.filter_nil]
          rw [if_pos (by simpa using hka)]
          rfl

theorem groupOf_append_single (ps : List (κ × ι)) (k k' : κ) (it : ι) :
    groupOf (ps ++ [(k, it)]) k'
      = groupOf ps k' ++ (if k' = k then [it] else []) := by
  unfold groupOf
  rw [List.filter_append, List.map_append]
  congr 1
  simp only [List.filter_cons, List.filter_nil]
  by_cases h : k' = k
  · subst h
    simp
  · rw [show (decide (k = k')) = false by simpa using fun hc => h hc.symm]
    simp [h]

theorem groupOf_eq_nil_of_not_mem (ps : List (κ × ι)) (k : κ)
    (h : k ∉ ps.map (fun p => p.1)) : groupOf ps k = [] := by
  unfold groupOf
  rw [List.filter_eq_nil.mpr, List.map_nil]
  intro p hp
  simp only [decide_eq_true_eq]
  intro hc
  exact h (List.mem_map.mpr ⟨p, hp, hc⟩)

theorem addToGroup_canon (ps : List (κ × ι)) (k : κ) (it : ι) :
    addToGroup (canonGroups ps) k it = canonGroups (ps ++ [(k, it)]) := by
  unfold canonGroups
  rw [List.map_append,
    show List.map (fun p => (p : κ × ι).1) [(k, it)] = [k] from rfl,
    firstKeys_append_single]
  by_cases hk : k ∈ ps.map (fun p => p.1)
  · rw [if_pos hk]
    -- `k` has a group already: `addToGroup` extends it in place
    have hmemk : k ∈ firstKeys (ps.map (fun p => p.1)) := (mem_firstKeys _ _).mpr hk
    have hnd := nodup_firstKeys (ps.map (fun p => p.1))
    revert hmemk hnd
    generalize firstKeys (ps.map (fun p => p.1)) = ks
    intro hmemk hnd
    induction ks with
    | nil => simp at hmemk
    | cons k₀ ks ih =>
        rcases List.mem_cons.mp hmemk with heq | hmem
        · subst heq
          simp only [List.map_cons, addToGroup, if_pos rfl]
          rw [groupOf_append_single, if_pos rfl]
          refine congrArg (fun l => (k, groupOf ps k ++ [it]) :: l) ?_
          apply List.map_congr_left
          intro k' hk'
          rw [groupOf_append_single, if_neg, List.append_nil]
          exact fun hc => (List.nodup_cons.mp hnd).1 (hc ▸ hk')
        · have hne : ¬ k₀ = k := fun hc => (List.nodup_cons.mp hnd).1 (hc ▸ hmem)
          simp only [List.map_cons, addToGroup, if_neg hne]
          rw [ih hmem (List.nodup_cons.mp hnd).2, groupOf_append_single, if_neg hne,
            List.append_nil]
  · rw [if_neg hk, List.map_append]
    -- the fresh key: `addToGroup` appends a singleton group at the end
    have hclean : ∀ k' ∈ firstKeys (ps.map (fun p => p.1)),
        groupOf (ps ++ [(k, it)]) k' = groupOf ps k' := by
      intro k' hk'
      rw [groupOf_append_single, if_neg, List.append_nil]
      intro hc
      exact hk (hc ▸ (mem_firstKeys _ _).mp hk')
    have hnew : groupOf (ps ++ [(k, it)]) k = [it] := by
      rw [groupOf_append_single, if_pos rfl, groupOf_eq_nil_of_not_mem ps k hk,
        List.nil_append]
    have hkabs : k ∉ firstKeys (ps.map (fun p => p.1)) :=
      fun hc => hk ((mem_firstKeys _ _).mp hc)
    revert hclean hkabs
    generalize firstKeys (ps.map (fun p => p.1)) = ks
    intro hclean hkabs
    induction ks with
    | nil =>
        simp only [List.map_nil, List.nil_append, addToGroup, List.map_cons]
        rw [hnew]
    | cons k₀ ks ih =>
        have hne : ¬ k₀ = k := fun hc => hkabs (hc ▸ List.mem_cons_self _ _)
        simp only [List.map_cons, List.cons_append, addToGroup, if_neg hne]
        rw [ih (fun k' hk' => hclean k' (List.mem_cons_of_mem _ hk'))
          (fun hc => hkabs (List.mem_cons_of_mem _ hc)),
          hclean k₀ (List.mem_cons_self _ _)]
        rfl

theorem foldl_addToGroup_canon (ps qs : List (κ × ι)) :
    ps.foldl (fun gs p => addToGroup gs p.1 p.2) (canonGroups qs)
      = canonGroups (qs ++ ps) := by
  induction ps generalizing qs with
  | nil => rw [List.foldl_nil, List.append_nil]
  | cons p ps ih =>
      rw [List.foldl_cons, addToGroup_canon qs p.1 p.2]
      have : (qs ++ [(p.1, p.2)]) ++ ps = qs ++ p :: ps := by
        rw [List.append_assoc]
        rfl
      rw [ih (qs ++ [(p.1, p.2)]), this]

/-- The reduce computes the closed-form grouping. -/
theorem groupPairs_eq_canon (ps : List (κ × ι)) :
    groupPairs ps = canonGroups ps := by
  have h0 : canonGroups ([] : List (κ × ι)) = [] := rfl
  have := foldl_addToGroup_canon ps ([] : List (κ × ι))
  rw [h0] at this
  rw [groupPairs, this, List.nil_append]

end Grouping


/-! ## The order-detail seeder (claim C10) -/

/-- Headers `seedOrderDetails` parses with `parseInt`. -/
def odIntHeader (h : List Char) : Bool :=
  h = chars "order_id" || h = chars "product_id" || h = chars "amount"

/-- The per-header value transform of the order-detail seeder. -/
def odFieldValue (h : List Char) (value : JsValue) : JsValue :=
  if odIntHeader h then .num (parseIntJS value)
  else if h = chars "subtotal" then .num (parseFloatJS value)
  else if h = chars "is_active" then .bool (decide (value = .str (chars "true")))
  else value

/-- The order-detail record-building loop. -/
def odBuild (values : List (List Char)) : Nat → List (List Char) → JsRecord → JsRecord
  | _, [], rec => rec
  | i, h :: hs, rec => odBuild values (i + 1) hs (jsSet rec h (odFieldValue h (rowValue values i)))

/-- The parsed and transformed rows of an order-details CSV. -/
def orderDetailRows (csv : List Char) : List JsRecord :=
  (csvLines csv).tail.map (fun line =>
    odBuild (splitOnChar ',' line) 0 (csvHeadersOf csv) [])

/-- The object key a row is grouped under: `groups[detail.order_id]`.
After the transform `order_id` is a number whenever the column exists
(its string form is the object key); when the column is missing every
row's key is the one `undefined` key, which the `NaN` key models the same
way — one shared group. -/
def odKey (d : JsRecord) : JsNum :=
  match jsGet d (chars "order_id") with
  | .num n => n
  | _ => .nan

/-- The object pushed per row:
`{ price: detail.subtotal / detail.amount, quantity: detail.amount }`. -/
structure CartItem : Type where
  price : JsValue
  quantity : JsValue
deriving DecidableEq, Repr

def odItem (d : JsRecord) : CartItem :=
  { price := .num ((jsToNumber (jsGet d (chars "subtotal"))).div
      (jsToNumber (jsGet d (chars "amount")))),
    quantity := jsGet d (chars "amount") }

/-- The groups after the reduce. -/
def odGroups (rows : List JsRecord) : List (JsNum × List CartItem) :=
  groupPairs (rows.map (fun d => (odKey d, odItem d)))

/-- Whether a group key enumerates as an array index in `Object.entries`
(canonical non-negative integer string). -/
def isIndexKey : JsNum → Bool
  | .rat q => decide (q.den = 1) && decide (0 ≤ q)
  | _ => false

/-- Comparison of group keys for the ascending integer-key enumeration
(only applied between index keys, which are rationals). -/
def keyLE (a b : JsNum × List CartItem) : Prop :=
  (match a.1 with | .rat q => q | _ => 0) ≤ (match b.1 with | .rat q => q | _ => 0)

instance : DecidableRel keyLE := fun a b => by
  unfold keyLE
  infer_instance

/-- `Object.entries` enumeration order: array-index keys ascending, then
the remaining keys in insertion order.  `parseInt` applied to the printed
key restores the key itself for every reachable key (an integer or
`NaN`), so keys are carried through unchanged. -/
def jsEntries (gs : List (JsNum × List CartItem)) : List (JsNum × List CartItem) :=
  (gs.filter (fun g => isIndexKey g.1)).insertionSort keyLE
    ++ gs.filter (fun g => ¬ isIndexKey g.1)

/-- The sequence of `createShoppingCart` calls the seeder issues: one per
entry of the grouped object, in enumeration order. -/
def orderDetailCalls (csv : List Char) : List (JsNum × List CartItem) :=
  jsEntries (odGroups (orderDetailRows csv))

/-- One row of the `order_items` table as `createShoppingCart` builds it
(`payment.dao.ts` concatenation, `createShoppingCart`): `order_id` from
the call, `price`/`quantity` from the cart item, `subtotal` recomputed as
`price * quantity`, `is_active` fixed to `true`. -/
structure OrderItemRow : Type where
  order_id : JsNum
  price : JsValue
  quantity : JsValue
  subtotal : JsValue
  is_active : Bool
deriving DecidableEq, Repr

def createShoppingCart (orderId : JsNum) (products : List CartItem) : List OrderItemRow :=
  products.map (fun p =>
    { order_id := orderId,
      price := p.price,
      quantity := p.quantity,
      subtotal := .num ((jsToNumber p.price).mul (jsToNumber p.quantity)),
      is_active := true })

/-- The bulk inserts the seeder issues, one per call. -/
def seedOrderDetailsInserts (csv : List Char) : List (JsNum × List OrderItemRow) :=
  (orderDetailCalls csv).map (fun c => (c.1, createShoppingCart c.1 c.2))

/-- Finiteness of the number inside a value. -/
def jsValueFinite : JsValue → Bool
  | .num n => n.isFinite
  | _ => false

/-- The projection of a row the calls depend on: group key, raw `amount`
value, raw `subtotal` value. -/
def odProj (d : JsRecord) : JsNum × JsValue × JsValue :=
  (odKey d, jsGet d (chars "amount"), jsGet d (chars "subtotal"))

/-- A cart item from a projection. -/
def itemOfProj (t : JsNum × JsValue × JsValue) : CartItem :=
  { price := .num ((jsToNumber t.2.2).div (jsToNumber t.2.1)), quantity := t.2.1 }


/-- The enumeration permutes the groups. -/
theorem jsEntries_perm (gs : List (JsNum × List CartItem)) :
    List.Perm (jsEntries gs) gs := by
  unfold jsEntries
  refine List.Perm.trans
    ((List.perm_insertionSort keyLE (gs.filter (fun g => isIndexKey g.1))).append_right _) ?_
  refine List.Perm.trans ?_ (List.filter_append_perm (fun g => isIndexKey g.1) gs)
  apply List.Perm.append_left
  apply List.Perm.of_eq
  apply List.filter_congr
  intro g _
  simp

/-- Group contents over the mapped pairs are the filtered, mapped rows. -/
theorem groupOf_map_rows (rows : List JsRecord) (k : JsNum) :
    groupOf (rows.map (fun d => (odKey d, odItem d))) k
      = (rows.filter (fun d => odKey d = k)).map odItem := by
  induction rows with
  | nil => rfl
  | cons d rows ih =>
      by_cases hk : odKey d = k
      · simp only [List.map_cons, groupOf, List.filter_cons, decide_eq_true_eq]
        rw [if_pos hk, if_pos hk]
        exact congrArg (List.cons (odItem d)) ih
      · simp only [List.map_cons, groupOf, List.filter_cons, decide_eq_true_eq]
        rw [if_neg hk, if_neg hk]
        exact ih

/-- The mapped pairs factor through the projection. -/
theorem pairs_factor (rows : List JsRecord) :
    rows.map (fun d => (odKey d, odItem d))
      = (rows.map odProj).map (fun t => (t.1, itemOfProj t)) := by
  rw [List.map_map]
  apply List.map_congr_left
  intro d _
  rfl

/-- Claim C10: `seedOrderDetails` does not insert the parsed rows as
given.  It groups them by `order_id` and issues exactly one
`createShoppingCart` call per distinct `order_id` value; the call for
key `k` carries, for each source row of that group in order, an item
with `quantity` the row's `amount` and `price` the unguarded
`subtotal / amount` (non-finite whenever `amount` is `0`); the rows the
call bulk-inserts take `order_id` from the call, recompute `subtotal` as
`price * quantity` and fix `is_active` to `true`; and the whole call
sequence depends only on each row's `(order_id, amount, subtotal)`
projection — the CSV's `product_id`, `subtotal` and `is_active` fields
are never forwarded. -/
theorem c10_order_details_grouping (csv csv' : List Char)
    (hproj : (orderDetailRows csv).map odProj = (orderDetailRows csv').map odProj) :
    ((orderDetailCalls csv).map (fun c => c.1)).Nodup
      ∧ (∀ k, k ∈ (orderDetailCalls csv).map (fun c => c.1)
          ↔ k ∈ (orderDetailRows csv).map odKey)
      ∧ (∀ k items, (k, items) ∈ orderDetailCalls csv →
          items = ((orderDetailRows csv).filter (fun d => odKey d = k)).map odItem)
      ∧ (∀ d ∈ orderDetailRows csv,
          jsToNumber (jsGet d (chars "amount")) = .rat 0 →
          jsValueFinite (odItem d).price = false)
      ∧ (∀ p ∈ seedOrderDetailsInserts csv, ∀ row ∈ p.2,
          row.is_active = true
            ∧ row.subtotal = .num ((jsToNumber row.price).mul (jsToNumber row.quantity))
            ∧ row.order_id = p.1)
      ∧ orderDetailCalls csv = orderDetailCalls csv' := by
  have hcanon : odGroups (orderDetailRows csv)
      = canonGroups ((orderDetailRows csv).map (fun d => (odKey d, odItem d))) :=
    groupPairs_eq_canon _
  have hperm : List.Perm (orderDetailCalls csv)
      (canonGroups ((orderDetailRows csv).map (fun d => (odKey d, odItem d)))) := by
    rw [orderDetailCalls, hcanon]
    exact jsEntries_perm _
  have hkeysperm : List.Perm ((orderDetailCalls csv).map (fun c => c.1))
      (firstKeys (((orderDetailRows csv).map (fun d => (odKey d, odItem d))).map
          (fun p => p.1))) := by
    have := hperm.map (fun c => c.1)
    refine this.trans (List.Perm.of_eq ?_)
    unfold canonGroups
    rw [List.map_map]
    exact Eq.trans (List.map_congr_left (fun k _ => rfl)) (List.map_id _)
  have hkeyeq : (((orderDetailRows csv).map (fun d => (odKey d, odItem d))).map
      (fun p => p.1)) = (orderDetailRows csv).map odKey := by
    rw [List.map_map]
    exact List.map_congr_left (fun d _ => rfl)
  refine ⟨?_, ?_, ?_, ?_, ?_, ?_⟩
  · exact hkeysperm.nodup_iff.mpr (nodup_firstKeys _)
  · intro k
    rw [hkeysperm.mem_iff, mem_firstKeys, hkeyeq]
  · intro k items hmem
    have hmem' := hperm.mem_iff.mp hmem
    unfold canonGroups at hmem'
    rcases List.mem_map.mp hmem' with ⟨k₀, _, heq⟩
    have hk : k₀ = k := congrArg Prod.fst heq
    subst hk
    have hit : items = groupOf ((orderDetailRows csv).map (fun d => (odKey d, odItem d))) k₀ :=
      (congrArg Prod.snd heq).symm
    rw [hit, groupOf_map_rows]
  · intro d _ hz
    show ((jsToNumber (jsGet d (chars "subtotal"))).div
        (jsToNumber (jsGet d (chars "amount")))).isFinite = false
    rw [hz]
    exact JsNum.div_rat_zero_not_finite _
  · intro p hp row hrow
    rcases List.mem_map.mp hp with ⟨c, _, rfl⟩
    rcases List.mem_map.mp hrow with ⟨it, _, rfl⟩
    exact ⟨rfl, rfl, rfl⟩
  · unfold orderDetailCalls odGroups groupPairs
    rw [pairs_factor (orderDetailRows csv), hproj, ← pairs_factor (orderDetailRows csv')]

/-- A concrete order-details CSV for the C10 witness. -/
def c10Csv : List Char :=
  chars "order_id,product_id,amount,subtotal,is_active\n1,1,2,100,true\n1,2,1,50.5,true\n2,3,4,200,false"

/-- Witness for C10 at the concrete CSV. -/
theorem c10_witness :
    ((orderDetailRows c10Csv).map odProj = (orderDetailRows c10Csv).map odProj)
      ∧ ((orderDetailCalls c10Csv).map (fun c => c.1)).Nodup
      ∧ orderDetailCalls c10Csv = orderDetailCalls c10Csv :=
  ⟨rfl, (c10_order_details_grouping c10Csv c10Csv rfl).1,
    (c10_order_details_grouping c10Csv c10Csv rfl).2.2.2.2.2⟩

end ECommerceRiwi
